import Mathlib

/-!
Shallow embedding of the deduplication engine of `finddupe` v1.25
(`src/finddupe/finddupe.c`), with theorems checking its natural-language
specification.

Machine integers are modelled as `Nat` with explicit reduction `% 2^32`
at every operation where the C program's 32-bit unsigned arithmetic wraps.
File contents are `List Nat` (one entry per byte); filesystem calls that
may fail are modelled by explicit success flags carried on the records.
-/

namespace Finddupe

/-- `2^32`, the modulus of `unsigned int` / `DWORD` arithmetic. -/
def M32 : Nat := 4294967296

/-- `BYTES_DO_CHECKSUM_OF`: how many bytes the file signature covers. -/
def BYTES_DO_CHECKSUM_OF : Nat := 32768

/-- `CHUNK_SIZE`: buffer size (64 KiB) used by the full-file comparison. -/
def CHUNK_SIZE : Nat := 65536

/-- `Checksum_t`: the two 32-bit halves of a file signature. -/
structure Checksum_t where
  Crc : Nat
  Sum : Nat
  deriving Repr, DecidableEq

/-- One iteration of the loop body of `CalcCrc` (finddupe.c lines 108-114):
`Reg = Reg ^ Data[a]; Sum = Sum + Data[a];`
`Reg = (Reg >> 8) ^ ((Reg & 0xff) << 24) ^ ((Reg & 0xff) << 9);`
`Sum = (Sum << 1) + (Sum >> 31);`
with each intermediate reduced modulo `2^32` exactly where the C
unsigned arithmetic wraps. -/
def calcCrcStep (st : Checksum_t) (b : Nat) : Checksum_t :=
  let reg := (st.Crc ^^^ b) % M32
  let sum := (st.Sum + b) % M32
  let reg := ((reg >>> 8) ^^^ (((reg &&& 255) <<< 24) % M32) ^^^ (((reg &&& 255) <<< 9) % M32)) % M32
  let sum := ((sum <<< 1) % M32 + (sum >>> 31)) % M32
  { Crc := reg, Sum := sum }

/-- `CalcCrc`: fold the per-byte update over a byte buffer. -/
def CalcCrc (check : Checksum_t) (data : List Nat) : Checksum_t :=
  data.foldl calcCrcStep check

/-- Signature computation of `ProcessFile` (finddupe.c lines 639-654):
checksum the first `min size 32768` bytes starting from `(0,0)`, then
`CheckSum.Sum += (unsigned int)FileSize`. -/
def fileSignature (content : List Nat) (size : Nat) : Checksum_t :=
  let bytesToRead := if size > BYTES_DO_CHECKSUM_OF then BYTES_DO_CHECKSUM_OF else size
  let c := CalcCrc { Crc := 0, Sum := 0 } (content.take bytesToRead)
  { c with Sum := (c.Sum + size % M32) % M32 }

/-- Modelled from the spec's wording of the checksum update rule (claim C5),
to be compared with the source embedding `calcCrcStep`:
`crc' = (crc XOR byte); crc' = (crc' >> 8) XOR ((crc' & 0xFF) << 24) XOR ((crc' & 0xFF) << 9)`;
`sum' = let s = sum + byte in (s << 1) + (s >> 31)`,
in 32-bit wrapping unsigned arithmetic. -/
def specSigStep (st : Checksum_t) (b : Nat) : Checksum_t :=
  let c := st.Crc ^^^ b
  let crc := ((c >>> 8) ^^^ ((c &&& 255) <<< 24) ^^^ ((c &&& 255) <<< 9)) % M32
  let s := (st.Sum + b) % M32
  let sum := ((s <<< 1) + (s >>> 31)) % M32
  { Crc := crc, Sum := sum }

/-- Modelled from the spec's wording (claim C5): the signature is computed
over at most the first 32768 bytes from `(0,0)`, and the file's byte length
truncated to 32 bits is finally added to the sum component. -/
def specSignature (content : List Nat) (size : Nat) : Checksum_t :=
  let c := (content.take 32768).foldl specSigStep { Crc := 0, Sum := 0 }
  { c with Sum := (c.Sum + size % M32) % M32 }

/-- A byte list is well formed when every entry is below 256. -/
def ByteList (l : List Nat) : Prop := ∀ b ∈ l, b < 256

lemma M32_pos : 0 < M32 := by decide

lemma calcCrcStep_crc_lt (st : Checksum_t) (b : Nat) : (calcCrcStep st b).Crc < M32 :=
  Nat.mod_lt _ M32_pos

/-- On states whose crc half is a genuine 32-bit value and on genuine bytes,
the source's interleaved update sequence agrees with the spec's one-shot
formulas. -/
lemma calcCrcStep_eq_specSigStep (st : Checksum_t) (b : Nat)
    (hc : st.Crc < M32) (hb : b < 256) : calcCrcStep st b = specSigStep st b := by
  unfold calcCrcStep specSigStep
  have hxor : st.Crc ^^^ b < M32 := by
    have : st.Crc ^^^ b < 2 ^ 32 :=
      Nat.xor_lt_two_pow (by simpa [M32] using hc) (lt_of_lt_of_le hb (by norm_num))
    simpa [M32] using this
  have h1 : (st.Crc ^^^ b) % M32 = st.Crc ^^^ b := Nat.mod_eq_of_lt hxor
  have hand0 : (st.Crc ^^^ b) &&& 255 < 256 := by
    simpa using Nat.and_lt_two_pow (st.Crc ^^^ b) (show (255 : Nat) < 2 ^ 8 by norm_num)
  have hand : (st.Crc ^^^ b) &&& 255 ≤ 255 := by omega
  have h24 : (((st.Crc ^^^ b) &&& 255) <<< 24) % M32 = ((st.Crc ^^^ b) &&& 255) <<< 24 := by
    apply Nat.mod_eq_of_lt
    have : ((st.Crc ^^^ b) &&& 255) <<< 24 ≤ 255 <<< 24 := by
      simpa [Nat.shiftLeft_eq] using Nat.mul_le_mul_right (2 ^ 24) hand
    exact lt_of_le_of_lt this (by norm_num [Nat.shiftLeft_eq, M32])
  have h9 : (((st.Crc ^^^ b) &&& 255) <<< 9) % M32 = ((st.Crc ^^^ b) &&& 255) <<< 9 := by
    apply Nat.mod_eq_of_lt
    have : ((st.Crc ^^^ b) &&& 255) <<< 9 ≤ 255 <<< 9 := by
      simpa [Nat.shiftLeft_eq] using Nat.mul_le_mul_right (2 ^ 9) hand
    exact lt_of_le_of_lt this (by norm_num [Nat.shiftLeft_eq, M32])
  simp only [h1, h24, h9, Nat.mod_add_mod]

lemma foldl_calcCrcStep_eq (l : List Nat) :
    ∀ st : Checksum_t, ByteList l → st.Crc < M32 →
      l.foldl calcCrcStep st = l.foldl specSigStep st := by
  induction l with
  | nil => intro st _ _; rfl
  | cons b t ih =>
    intro st hbl hc
    have hb : b < 256 := hbl b (List.mem_cons_self _ _)
    have ht : ByteList t := fun x hx => hbl x (List.mem_cons_of_mem _ hx)
    simp only [List.foldl_cons, calcCrcStep_eq_specSigStep st b hc hb]
    have : (specSigStep st b).Crc < M32 := by
      rw [← calcCrcStep_eq_specSigStep st b hc hb]
      exact calcCrcStep_crc_lt st b
    exact ih (specSigStep st b) ht this

/-- C5: the signature computed by `ProcessFile`/`CalcCrc` is exactly the
signature the spec describes: fold the spec's per-byte crc/sum formulas, in
32-bit wrapping arithmetic, over at most the first 32768 bytes starting from
`(0,0)`, then add the byte length truncated to 32 bits to the sum component. -/
theorem fileSignature_eq_specSignature (content : List Nat) (size : Nat)
    (hbl : ByteList content) (hlen : content.length = size) :
    fileSignature content size = specSignature content size := by
  have key : ∀ l : List Nat, ByteList l →
      l.foldl calcCrcStep { Crc := 0, Sum := 0 } = l.foldl specSigStep { Crc := 0, Sum := 0 } :=
    fun l hl => foldl_calcCrcStep_eq l _ hl (by norm_num [M32])
  unfold fileSignature specSignature CalcCrc
  simp only [BYTES_DO_CHECKSUM_OF]
  by_cases h : size > 32768
  · rw [if_pos h, key _ (fun x hx => hbl x (List.take_subset _ _ hx))]
  · have h32 : content.length ≤ 32768 := by omega
    rw [if_neg h, List.take_of_length_le (le_of_eq hlen),
      List.take_of_length_le h32, key content hbl]

/-- C5 witness: the theorem applied to the concrete two-byte file `[1, 2]`. -/
theorem fileSignature_eq_specSignature_witness :
    fileSignature [1, 2] 2 = specSignature [1, 2] 2 :=
  fileSignature_eq_specSignature [1, 2] 2 (by unfold ByteList; decide) rfl

/-! ## EliminateDuplicate (finddupe.c lines 151-370) -/

/-- `enum EDRes`: result of `EliminateDuplicate`. -/
inductive EDRes where
  | EDR_NOT_DUPE
  | EDR_HDLINK_LIMIT
  | EDR_SKIP_RO
  | EDR_NO_OP
  | EDR_DELETE
  | EDR_HDLINK
  deriving Repr, DecidableEq

/-- `FileData_t` minus the three index links: the per-file payload.
`content` is the file's bytes on disk; `readonly` is the absence of
`S_IWUSR` in its stat mode; `openOk` tells whether `_wfopen_s` on its
name succeeds at verification time. -/
structure FileData_t where
  Crc : Nat
  Sum : Nat
  IndexHigh : Nat
  IndexLow : Nat
  NumLinks : Nat
  FileSize : Nat
  FileName : String
  content : List Nat
  readonly : Bool
  openOk : Bool
  deriving Repr, DecidableEq

/-- The global mode flags consumed by the engine (finddupe.c lines 83-95),
plus whether `-bat` supplied a batch file. -/
structure Config where
  PrintDuplicates : Bool
  MakeHardLinks : Bool
  DelDuplicates : Bool
  ReferenceFiles : Bool
  DoReadonly : Bool
  HardlinkSearchMode : Bool
  SkipZeroLength : Bool
  HideCantReadMessage : Bool
  BatchFile : Bool
  deriving Repr, DecidableEq

/-- Observable side effects of one `EliminateDuplicate` call. -/
structure Effects where
  openedFiles : Bool
  reported : Bool
  chmodWritable : Bool
  unlinked : Bool
  batchDelLine : Bool
  linked : Bool
  batchLinkLine : Bool
  chmodRestored : Bool
  countedDuplicate : Bool
  deriving Repr, DecidableEq

/-- No effect yet. -/
def Effects.none : Effects :=
  ⟨false, false, false, false, false, false, false, false, false⟩

/-- The full-content comparison loop (finddupe.c lines 203-228): compare
`bytesLeft` bytes of the two streams in chunks of at most `CHUNK_SIZE`,
stopping at the first differing chunk. -/
def fullCompare (bytesLeft : Nat) (c1 c2 : List Nat) : Bool :=
  if h : bytesLeft = 0 then true
  else
    let bytesToRead := if bytesLeft > CHUNK_SIZE then CHUNK_SIZE else bytesLeft
    if c1.take bytesToRead = c2.take bytesToRead then
      fullCompare (bytesLeft - bytesToRead) (c1.drop bytesToRead) (c2.drop bytesToRead)
    else false
termination_by bytesLeft
decreasing_by
  simp only [CHUNK_SIZE]
  split <;> omega

/-- `memcmp` over the 8-byte `FileIndex` struct compares the two `DWORD`
fields for equality. -/
def fileIndexEq (a b : FileData_t) : Bool :=
  a.IndexHigh % M32 = b.IndexHigh % M32 ∧ a.IndexLow % M32 = b.IndexLow % M32

/-- Result of a call that may abort the whole process (`exit(EXIT_FAILURE)`). -/
inductive ERun where
  | fatal
  | ok (r : EDRes) (eff : Effects)
  deriving Repr, DecidableEq

/-- Reporting at `dont_read:` (finddupe.c lines 244-254): print the pair
when `PrintDuplicates && !HardlinkSearchMode`. -/
def reportEff (cfg : Config) (eff : Effects) : Effects :=
  if cfg.PrintDuplicates ∧ ¬cfg.HardlinkSearchMode then { eff with reported := true } else eff

/-- The `_wchmod(..., mode | S_IWUSR)` call (finddupe.c lines 279-285),
reached when the file is read-only, `DoReadonly` is set, and a mutating
mode is active. -/
def chmodEff (cfg : Config) (isReadonly : Bool) (eff : Effects) : Effects :=
  if isReadonly ∧ (cfg.MakeHardLinks ∨ cfg.DelDuplicates) then
    { eff with chmodWritable := true } else eff

/-- The deletion step (finddupe.c lines 302-314): a `del` line in the
batch file, or a direct `_wunlink`. -/
def deleteEff (cfg : Config) (eff : Effects) : Effects :=
  if cfg.BatchFile then { eff with batchDelLine := true } else { eff with unlinked := true }

/-- The hardlink-creation step (finddupe.c lines 316-353): an `fsutil`
line in the batch file, or `CreateHardLinkW` plus permission/mtime
restoration. -/
def linkEff (cfg : Config) (eff : Effects) : Effects :=
  if cfg.BatchFile then { eff with batchLinkLine := true }
  else { eff with linked := true, chmodRestored := true }

/-- The code from the `dont_read:` label on (finddupe.c lines 243-369):
reporting, the report-only early return, the read-only policy, the
hard-link limit, and the delete / hardlink actions (direct or batch). -/
def edFromDontRead (cfg : Config) (thisFile dupeOf : FileData_t)
    (hardlinked : Bool) (eff0 : Effects) : ERun :=
  let eff := reportEff cfg eff0
  if ¬cfg.MakeHardLinks ∧ ¬cfg.DelDuplicates then .ok .EDR_NO_OP eff
  else if thisFile.readonly ∧ ¬cfg.DoReadonly then .ok .EDR_SKIP_RO eff
  else
    let eff := chmodEff cfg thisFile.readonly eff
    if cfg.MakeHardLinks ∧ hardlinked then .ok .EDR_NO_OP eff
    else if cfg.MakeHardLinks ∧ dupeOf.NumLinks ≥ 1023 then .ok .EDR_HDLINK_LIMIT eff
    else
      let eff := deleteEff cfg eff
      if cfg.MakeHardLinks then .ok .EDR_HDLINK (linkEff cfg eff)
      else .ok .EDR_DELETE eff

/-- `EliminateDuplicate` (finddupe.c lines 164-370).  Size mismatch returns
`EDR_NOT_DUPE` before any I/O; a pair already recognized as the same
physical file (nonzero link count on the kept file and equal `FileIndex`)
jumps to `dont_read`; otherwise both files are opened (an open failure
calls `exit(EXIT_FAILURE)`, modelled as `ERun.fatal`) and their contents
compared in chunks of at most 64 KiB. -/
def EliminateDuplicate (cfg : Config) (thisFile dupeOf : FileData_t) : ERun :=
  if thisFile.FileSize ≠ dupeOf.FileSize then .ok .EDR_NOT_DUPE .none
  else if dupeOf.NumLinks > 0 ∧ fileIndexEq thisFile dupeOf = true then
    edFromDontRead cfg thisFile dupeOf true .none
  else if ¬thisFile.openOk then .fatal
  else if ¬dupeOf.openOk then .fatal
  else if fullCompare thisFile.FileSize thisFile.content dupeOf.content then
    edFromDontRead cfg thisFile dupeOf false
      ⟨true, false, false, false, false, false, false, false, true⟩
  else .ok .EDR_NOT_DUPE ⟨true, false, false, false, false, false, false, false, false⟩

/-- A result other than `EDR_NOT_DUPE` classifies the pair as a duplicate. -/
def isDuplicateRes (r : EDRes) : Bool := r ≠ .EDR_NOT_DUPE

/-- The chunked comparison loop succeeds exactly when the first `n` bytes of
the two streams agree. -/
lemma fullCompare_iff (n : Nat) : ∀ c1 c2 : List Nat,
    fullCompare n c1 c2 = true ↔ c1.take n = c2.take n := by
  induction n using Nat.strong_induction_on with
  | _ n ih =>
    intro c1 c2
    by_cases h0 : n = 0
    · subst h0; simp [fullCompare]
    · rw [fullCompare, dif_neg h0]
      have hbtr_pos : 0 < if n > CHUNK_SIZE then CHUNK_SIZE else n := by
        simp only [CHUNK_SIZE]; split <;> omega
      have hbtr_le : (if n > CHUNK_SIZE then CHUNK_SIZE else n) ≤ n := by
        split <;> omega
      set btr := if n > CHUNK_SIZE then CHUNK_SIZE else n with hbtr
      have hsplit : ∀ l : List Nat, l.take n = l.take btr ++ (l.drop btr).take (n - btr) := by
        intro l
        conv_lhs => rw [show n = btr + (n - btr) by omega]
        exact List.take_add l btr (n - btr)
      by_cases hc : c1.take btr = c2.take btr
      · rw [if_pos hc, ih (n - btr) (by omega) (c1.drop btr) (c2.drop btr)]
        constructor
        · intro hd
          rw [hsplit c1, hsplit c2, hc, hd]
        · intro hn
          rw [hsplit c1, hsplit c2, hc] at hn
          exact List.append_cancel_left hn
      · rw [if_neg hc]
        simp only [Bool.false_eq_true, false_iff]
        intro hn
        apply hc
        have := congrArg (List.take btr) hn
        simpa [List.take_take, Nat.min_eq_left hbtr_le] using this

lemma reportEff_fields (cfg : Config) (eff : Effects) :
    (reportEff cfg eff).openedFiles = eff.openedFiles ∧
    (reportEff cfg eff).countedDuplicate = eff.countedDuplicate := by
  unfold reportEff; split <;> exact ⟨rfl, rfl⟩

lemma chmodEff_fields (cfg : Config) (ro : Bool) (eff : Effects) :
    (chmodEff cfg ro eff).openedFiles = eff.openedFiles ∧
    (chmodEff cfg ro eff).countedDuplicate = eff.countedDuplicate := by
  unfold chmodEff; split <;> exact ⟨rfl, rfl⟩

lemma deleteEff_fields (cfg : Config) (eff : Effects) :
    (deleteEff cfg eff).openedFiles = eff.openedFiles ∧
    (deleteEff cfg eff).countedDuplicate = eff.countedDuplicate := by
  unfold deleteEff; split <;> exact ⟨rfl, rfl⟩

lemma linkEff_fields (cfg : Config) (eff : Effects) :
    (linkEff cfg eff).openedFiles = eff.openedFiles ∧
    (linkEff cfg eff).countedDuplicate = eff.countedDuplicate := by
  unfold linkEff; split <;> exact ⟨rfl, rfl⟩

/-- `edFromDontRead` always classifies the pair as a duplicate: it never
returns `EDR_NOT_DUPE`, never aborts, and neither opens files nor touches
the duplicate counter beyond what was already recorded. -/
lemma edFromDontRead_spec (cfg : Config) (tf df : FileData_t)
    (hl : Bool) (eff : Effects) :
    ∃ r e, edFromDontRead cfg tf df hl eff = .ok r e ∧ isDuplicateRes r = true ∧
      e.openedFiles = eff.openedFiles ∧ e.countedDuplicate = eff.countedDuplicate := by
  have h1 := reportEff_fields cfg eff
  have h2 := chmodEff_fields cfg tf.readonly (reportEff cfg eff)
  have h3 := deleteEff_fields cfg (chmodEff cfg tf.readonly (reportEff cfg eff))
  have h4 := linkEff_fields cfg (deleteEff cfg (chmodEff cfg tf.readonly (reportEff cfg eff)))
  unfold edFromDontRead
  split_ifs
  · exact ⟨_, _, rfl, rfl, h1.1, h1.2⟩
  · exact ⟨_, _, rfl, rfl, h1.1, h1.2⟩
  · exact ⟨_, _, rfl, rfl, h2.1.trans h1.1, h2.2.trans h1.2⟩
  · exact ⟨_, _, rfl, rfl, h2.1.trans h1.1, h2.2.trans h1.2⟩
  · exact ⟨_, _, rfl, rfl, (h4.1.trans h3.1).trans (h2.1.trans h1.1),
      (h4.2.trans h3.2).trans (h2.2.trans h1.2)⟩
  · exact ⟨_, _, rfl, rfl, h3.1.trans (h2.1.trans h1.1), h3.2.trans (h2.2.trans h1.2)⟩

/-- C1: for a pair not already recognized as the same physical file, the
comparison phase of `EliminateDuplicate` classifies it as a duplicate
exactly when sizes are equal and the contents are byte-for-byte equal over
the full length (the comparison proceeds in chunks of at most 64 KiB,
`fullCompare`); and when the sizes differ it returns `EDR_NOT_DUPE` at
once, with `Effects.none` recording that neither file was opened. -/
theorem eliminateDuplicate_duplicate_iff (cfg : Config) (tf df : FileData_t)
    (hnl : ¬(df.NumLinks > 0 ∧ fileIndexEq tf df = true))
    (ho1 : tf.openOk = true) (ho2 : df.openOk = true)
    (hl1 : tf.content.length = tf.FileSize) (hl2 : df.content.length = df.FileSize) :
    (∃ r e, EliminateDuplicate cfg tf df = .ok r e) ∧
    (∀ r e, EliminateDuplicate cfg tf df = .ok r e →
      (isDuplicateRes r = true ↔ tf.FileSize = df.FileSize ∧ tf.content = df.content)) ∧
    (tf.FileSize ≠ df.FileSize →
      EliminateDuplicate cfg tf df = .ok .EDR_NOT_DUPE Effects.none) := by
  unfold EliminateDuplicate
  by_cases hsz : tf.FileSize = df.FileSize
  · rw [if_neg (by simpa using hsz)]
    rw [if_neg (by simpa using hnl)]
    rw [if_neg (by simp [ho1]), if_neg (by simp [ho2])]
    by_cases hcmp : fullCompare tf.FileSize tf.content df.content = true
    · rw [if_pos hcmp]
      obtain ⟨r, e, heq, hdup, -, -⟩ := edFromDontRead_spec cfg tf df false
        ⟨true, false, false, false, false, false, false, false, true⟩
      refine ⟨⟨r, e, heq⟩, ?_, fun h => absurd hsz h⟩
      intro r' e' heq'
      rw [heq] at heq'
      cases heq'
      have hcnt : tf.content = df.content := by
        rw [fullCompare_iff] at hcmp
        calc tf.content = tf.content.take tf.content.length := (List.take_length _).symm
          _ = tf.content.take tf.FileSize := by rw [hl1]
          _ = df.content.take tf.FileSize := hcmp
          _ = df.content.take df.content.length := by rw [hl2, hsz]
          _ = df.content := List.take_length _
      simp [hdup, hsz, hcnt]
    · rw [if_neg hcmp]
      refine ⟨⟨_, _, rfl⟩, ?_, fun h => absurd hsz h⟩
      intro r' e' heq'
      cases heq'
      simp only [isDuplicateRes, ne_eq, decide_eq_true_eq, false_iff, not_true_eq_false,
        decide_not, Bool.not_eq_true', decide_eq_false_iff_not, Decidable.not_not]
      rintro ⟨-, hcnt⟩
      apply hcmp
      rw [fullCompare_iff, hcnt]
  · rw [if_pos (by simpa using hsz)]
    refine ⟨⟨_, _, rfl⟩, ?_, fun _ => rfl⟩
    intro r' e' heq'
    cases heq'
    simp [isDuplicateRes, hsz]

/-- C1 witness: two one-byte files with equal content, distinct file
indices, are classified duplicates; the iff evaluates on them. -/
theorem eliminateDuplicate_duplicate_iff_witness :
    ∃ r e, EliminateDuplicate
      ⟨true, false, false, false, false, false, true, false, false⟩
      ⟨0, 0, 0, 1, 1, 1, "a", [7], false, true⟩
      ⟨0, 0, 0, 2, 1, 1, "b", [7], false, true⟩ = .ok r e :=
  (eliminateDuplicate_duplicate_iff _ _ _
    (by decide) rfl rfl rfl rfl).1

/-- C2: a pair with equal size, both link counts nonzero and equal
`FileIndex` id pair is classified as a duplicate with no byte comparison
and without opening either file (`openedFiles` stays `false`). -/
theorem hardlinked_pair_is_duplicate (cfg : Config) (tf df : FileData_t)
    (hsz : tf.FileSize = df.FileSize)
    (hn1 : tf.NumLinks > 0) (hn2 : df.NumLinks > 0)
    (hidx : fileIndexEq tf df = true) :
    ∃ r e, EliminateDuplicate cfg tf df = .ok r e ∧ isDuplicateRes r = true ∧
      e.openedFiles = false := by
  unfold EliminateDuplicate
  rw [if_neg (by simpa using hsz), if_pos (by exact ⟨hn2, hidx⟩)]
  obtain ⟨r, e, heq, hdup, hop, -⟩ := edFromDontRead_spec cfg tf df true Effects.none
  exact ⟨r, e, heq, hdup, hop.trans rfl⟩

/-- C2 witness: two records of the same physical file (equal id pair,
two links each). -/
theorem hardlinked_pair_is_duplicate_witness :
    ∃ r e, EliminateDuplicate
      ⟨true, false, false, false, false, false, true, false, false⟩
      ⟨0, 0, 5, 6, 2, 4, "a", [1, 2, 3, 4], false, true⟩
      ⟨0, 0, 5, 6, 2, 4, "b", [1, 2, 3, 4], false, true⟩ = .ok r e ∧
      isDuplicateRes r = true ∧ e.openedFiles = false :=
  hardlinked_pair_is_duplicate _ _ _ rfl (by decide) (by decide) (by decide)

/-- `reportEff` changes no mutation flag. -/
lemma reportEff_mutations (cfg : Config) (eff : Effects) :
    (reportEff cfg eff).chmodWritable = eff.chmodWritable ∧
    (reportEff cfg eff).unlinked = eff.unlinked ∧
    (reportEff cfg eff).batchDelLine = eff.batchDelLine ∧
    (reportEff cfg eff).linked = eff.linked ∧
    (reportEff cfg eff).batchLinkLine = eff.batchLinkLine ∧
    (reportEff cfg eff).chmodRestored = eff.chmodRestored := by
  unfold reportEff; split <;> exact ⟨rfl, rfl, rfl, rfl, rfl, rfl⟩

/-- When printing is on and hardlink-search mode is off, `reportEff`
reports the pair. -/
lemma reportEff_reported (cfg : Config) (eff : Effects)
    (hp : cfg.PrintDuplicates = true) (hh : cfg.HardlinkSearchMode = false) :
    (reportEff cfg eff).reported = true := by
  unfold reportEff
  rw [if_pos (by simp [hp, hh])]

/-- With neither hardlink mode nor delete mode set, `edFromDontRead`
returns `EDR_NO_OP` right after the optional report. -/
lemma edFromDontRead_reportOnly (cfg : Config) (tf df : FileData_t)
    (hl : Bool) (eff : Effects)
    (hmh : cfg.MakeHardLinks = false) (hdd : cfg.DelDuplicates = false) :
    edFromDontRead cfg tf df hl eff = .ok .EDR_NO_OP (reportEff cfg eff) := by
  unfold edFromDontRead
  rw [if_pos (by simp [hmh, hdd])]

/-- C7: in report-only mode (no hardlink, no delete) a confirmed duplicate
— reached through either the same-physical-file recognition or the full
byte comparison — yields `EDR_NO_OP` with no chmod, no delete and no link
creation, neither direct nor via the batch file; and the duplicate is
reported whenever printing is on and hardlink-search mode is off. -/
theorem reportOnly_stops_at_noOp (cfg : Config) (tf df : FileData_t)
    (hmh : cfg.MakeHardLinks = false) (hdd : cfg.DelDuplicates = false)
    (hsz : tf.FileSize = df.FileSize)
    (hdup : (df.NumLinks > 0 ∧ fileIndexEq tf df = true) ∨
      (tf.openOk = true ∧ df.openOk = true ∧ tf.content = df.content)) :
    ∃ e, EliminateDuplicate cfg tf df = .ok .EDR_NO_OP e ∧
      e.chmodWritable = false ∧ e.unlinked = false ∧ e.batchDelLine = false ∧
      e.linked = false ∧ e.batchLinkLine = false ∧ e.chmodRestored = false ∧
      (cfg.PrintDuplicates = true → cfg.HardlinkSearchMode = false → e.reported = true) := by
  unfold EliminateDuplicate
  rw [if_neg (by simpa using hsz)]
  by_cases hhd : df.NumLinks > 0 ∧ fileIndexEq tf df = true
  · rw [if_pos hhd, edFromDontRead_reportOnly cfg tf df true Effects.none hmh hdd]
    obtain ⟨m1, m2, m3, m4, m5, m6⟩ := reportEff_mutations cfg Effects.none
    exact ⟨_, rfl, m1, m2, m3, m4, m5, m6,
      fun hp hh => reportEff_reported cfg Effects.none hp hh⟩
  · rw [if_neg hhd]
    obtain ⟨ho1, ho2, hcnt⟩ := hdup.resolve_left hhd
    rw [if_neg (by simp [ho1]), if_neg (by simp [ho2])]
    rw [if_pos ((fullCompare_iff _ _ _).mpr (by rw [hcnt]))]
    rw [edFromDontRead_reportOnly cfg tf df false _ hmh hdd]
    obtain ⟨m1, m2, m3, m4, m5, m6⟩ := reportEff_mutations cfg
      ⟨true, false, false, false, false, false, false, false, true⟩
    exact ⟨_, rfl, m1, m2, m3, m4, m5, m6,
      fun hp hh => reportEff_reported cfg _ hp hh⟩

/-- C7 witness: two equal one-byte files under the default report-only
configuration. -/
theorem reportOnly_stops_at_noOp_witness :
    ∃ e, EliminateDuplicate
      ⟨true, false, false, false, false, false, true, false, false⟩
      ⟨0, 0, 0, 1, 1, 1, "a", [7], false, true⟩
      ⟨0, 0, 0, 2, 1, 1, "b", [7], false, true⟩ = .ok .EDR_NO_OP e ∧
      e.chmodWritable = false ∧ e.unlinked = false ∧ e.batchDelLine = false ∧
      e.linked = false ∧ e.batchLinkLine = false ∧ e.chmodRestored = false ∧
      (true = true → false = false → e.reported = true) :=
  reportOnly_stops_at_noOp _ _ _ rfl rfl rfl (Or.inr ⟨rfl, rfl, rfl⟩)

/-- The result constructor of an `ERun`, `none` when the run aborted. -/
def resOf : ERun → Option EDRes
  | .fatal => none
  | .ok r _ => some r

/-- C6 counterexample: two concrete confirmed-duplicate pairs in hardlink
mode whose kept file has 1023 links, on which the policy does not return
`EDR_HDLINK_LIMIT`: a read-only candidate (without `-rdonly`) yields
`EDR_SKIP_RO`, and a pair that is already the same physical file yields
`EDR_NO_OP`. -/
theorem hardlink_limit_counterexample :
    resOf (EliminateDuplicate
      ⟨true, true, false, false, false, false, true, false, false⟩
      ⟨0, 0, 0, 1, 1, 1, "a", [7], true, true⟩
      ⟨0, 0, 0, 2, 1023, 1, "b", [7], false, true⟩) = some .EDR_SKIP_RO ∧
    resOf (EliminateDuplicate
      ⟨true, true, false, false, false, false, true, false, false⟩
      ⟨0, 0, 0, 2, 1023, 1, "a", [7], false, true⟩
      ⟨0, 0, 0, 2, 1023, 1, "b", [7], false, true⟩) = some .EDR_NO_OP := by
  constructor
  · unfold EliminateDuplicate
    rw [if_neg (by decide), if_neg (by decide), if_neg (by decide), if_neg (by decide),
      if_pos ((fullCompare_iff _ _ _).mpr rfl)]
    decide
  · decide

/-- C6 as amended: in hardlink mode, for a confirmed duplicate pair that is
not already the same physical file and whose candidate is not read-only,
a kept-file link count at or above 1023 yields `EDR_HDLINK_LIMIT` with no
delete, no link creation and no chmod: the candidate is left untouched. -/
theorem hardlink_limit_skips (cfg : Config) (tf df : FileData_t)
    (hmh : cfg.MakeHardLinks = true)
    (hnl : ¬(df.NumLinks > 0 ∧ fileIndexEq tf df = true))
    (hro : tf.readonly = false)
    (ho1 : tf.openOk = true) (ho2 : df.openOk = true)
    (hsz : tf.FileSize = df.FileSize) (hcnt : tf.content = df.content)
    (hlim : df.NumLinks ≥ 1023) :
    ∃ e, EliminateDuplicate cfg tf df = .ok .EDR_HDLINK_LIMIT e ∧
      e.unlinked = false ∧ e.batchDelLine = false ∧ e.linked = false ∧
      e.batchLinkLine = false ∧ e.chmodWritable = false := by
  unfold EliminateDuplicate
  rw [if_neg (by simpa using hsz), if_neg hnl,
    if_neg (by simp [ho1]), if_neg (by simp [ho2])]
  rw [if_pos ((fullCompare_iff _ _ _).mpr (by rw [hcnt]))]
  unfold edFromDontRead
  rw [if_neg (by simp [hmh]), if_neg (by simp [hro])]
  dsimp only
  have hch : chmodEff cfg tf.readonly (reportEff cfg
      ⟨true, false, false, false, false, false, false, false, true⟩) =
      reportEff cfg ⟨true, false, false, false, false, false, false, false, true⟩ := by
    unfold chmodEff
    rw [if_neg (by simp [hro])]
  rw [hch, if_neg (by simp), if_pos (by simp [hmh, hlim])]
  obtain ⟨m1, m2, m3, m4, m5, m6⟩ := reportEff_mutations cfg
    ⟨true, false, false, false, false, false, false, false, true⟩
  exact ⟨_, rfl, m2, m3, m4, m5, m1⟩

/-- C6 amended-theorem witness: a concrete non-read-only candidate against
a kept file with 1023 links. -/
theorem hardlink_limit_skips_witness :
    ∃ e, EliminateDuplicate
      ⟨true, true, false, false, false, false, true, false, false⟩
      ⟨0, 0, 0, 1, 1, 1, "a", [7], false, true⟩
      ⟨0, 0, 0, 2, 1023, 1, "b", [7], false, true⟩ = .ok .EDR_HDLINK_LIMIT e ∧
      e.unlinked = false ∧ e.batchDelLine = false ∧ e.linked = false ∧
      e.batchLinkLine = false ∧ e.chmodWritable = false :=
  hardlink_limit_skips _ _ _ rfl (by decide) rfl rfl rfl rfl rfl (by decide)

/-! ## The grouping structure: CheckDuplicate (finddupe.c lines 375-473) -/

/-- A slot of the `FileData` array: the payload plus the three index links
`Larger`, `Smaller`, `Same` of `FileData_t`. -/
structure Node where
  data : FileData_t
  Larger : Nat
  Smaller : Nat
  Same : Nat
  deriving Repr, DecidableEq

/-- The `DupeStats` counters (finddupe.c lines 64-73). -/
structure DupeStats_t where
  TotalFiles : Nat
  DuplicateFiles : Nat
  HardlinkGroups : Nat
  CantReadFiles : Nat
  ZeroLengthFiles : Nat
  TotalBytes : Nat
  DuplicateBytes : Nat
  deriving Repr, DecidableEq

/-- The scan's global mutable state: the `FileData` array (slot 0 unused,
`NumUnique = FileData.length`), the counters, and the log of
`Duplicate:`/`With:` report pairs printed by `EliminateDuplicate`
(kept file name, candidate file name). -/
structure ScanState where
  FileData : List Node
  stats : DupeStats_t
  reports : List (String × String)
  deriving Repr, DecidableEq

/-- Little-endian byte image of a 32-bit value, as laid out in memory on
the reference platform. -/
def bytesLE4 (n : Nat) : List Nat :=
  [n % 256, n / 256 % 256, n / 65536 % 256, n / 16777216 % 256]

/-- Memory image of a `Checksum_t` (field `Crc` first, then `Sum`). -/
def checksumBytes (crc sum : Nat) : List Nat := bytesLE4 crc ++ bytesLE4 sum

/-- `memcmp`: lexicographic comparison of byte images, sign only. -/
def memcmpBytes : List Nat → List Nat → Int
  | [], [] => 0
  | [], _ :: _ => -1
  | _ :: _, [] => 1
  | a :: as, b :: bs => if a < b then -1 else if b < a then 1 else memcmpBytes as bs

/-- The `memcmp(&ThisFile.Checksum, &FileData[Ptr].Checksum, sizeof(Checksum_t))`
of finddupe.c line 388. -/
def compChecksum (f : FileData_t) (g : FileData_t) : Int :=
  memcmpBytes (checksumBytes f.Crc f.Sum) (checksumBytes g.Crc g.Sum)

/-- `FileData[i].Same = v`. -/
def setSame (s : ScanState) (i v : Nat) : ScanState :=
  { s with FileData := s.FileData.modify (fun n => { n with Same := v }) i }

/-- `FileData[i].Larger = v`. -/
def setLarger (s : ScanState) (i v : Nat) : ScanState :=
  { s with FileData := s.FileData.modify (fun n => { n with Larger := v }) i }

/-- `FileData[i].Smaller = v`. -/
def setSmaller (s : ScanState) (i v : Nat) : ScanState :=
  { s with FileData := s.FileData.modify (fun n => { n with Smaller := v }) i }

/-- `FileData[i].NumLinks += 1` (finddupe.c line 398, after `EDR_HDLINK`). -/
def incNumLinks (s : ScanState) (i : Nat) : ScanState :=
  { s with FileData := (s.FileData.modify
      (fun n => { n with data := { n.data with NumLinks := n.data.NumLinks + 1 } }) i) }

/-- `store_it:` (finddupe.c lines 456-472): append the record (whose own
links are zero — `ThisFile` was `memset` to zero) at index `NumUnique`. -/
def storeIt (s : ScanState) (f : FileData_t) : ScanState :=
  { s with FileData := s.FileData ++ [⟨f, 0, 0, 0⟩] }

/-- Apply the observable effects of one `EliminateDuplicate` call to the
global state: the `DupeStats.DuplicateFiles/DuplicateBytes` increments
(finddupe.c lines 240-241) and the `Duplicate:`/`With:` report
(lines 244-254), which the C code performs inside `EliminateDuplicate`. -/
def applyEDEffects (s : ScanState) (f : FileData_t) (dupeOfName : String)
    (eff : Effects) : ScanState :=
  let s := if eff.countedDuplicate then
    { s with stats :=
        { s.stats with
          DuplicateFiles := s.stats.DuplicateFiles + 1
          DuplicateBytes := s.stats.DuplicateBytes + f.FileSize } }
    else s
  if eff.reported then { s with reports := s.reports ++ [(dupeOfName, f.FileName)] } else s

/-- Outcome of `CheckDuplicate` for one record. -/
inductive InsOutcome where
  | stored
  | eliminated (r : EDRes)
  | fatalRun
  deriving Repr, DecidableEq

/-- The inner `while (true)` of the reference/hardlink-search branch
(finddupe.c lines 419-430): follow the `same` chain to its end and set the
last node's `Same` to `NumUnique`.  Returns `none` on fuel exhaustion,
which never happens from well-formed states. -/
def chainAppend (s : ScanState) : Nat → Nat → Option ScanState
  | 0, _ => none
  | fuel + 1, ptr =>
    match s.FileData[ptr]? with
    | none => none
    | some node =>
      if node.Same ≠ 0 then chainAppend s fuel node.Same
      else some (setSame s ptr s.FileData.length)

/-- The `while (true)` search loop of `CheckDuplicate` (finddupe.c lines
386-454), walking the trie from slot `ptr`. `none` on fuel exhaustion or
out-of-bounds slot, which never happens from well-formed states. -/
def walkLoop (cfg : Config) (f : FileData_t) :
    Nat → Nat → ScanState → Option (ScanState × InsOutcome)
  | 0, _, _ => none
  | fuel + 1, ptr, s =>
    match s.FileData[ptr]? with
    | none => none
    | some node =>
      let comp := compChecksum f node.data
      if comp = 0 then
        if ¬cfg.ReferenceFiles ∧ ¬cfg.HardlinkSearchMode then
          match EliminateDuplicate cfg f node.data with
          | .fatal => some (s, .fatalRun)
          | .ok r eff =>
            let s := applyEDEffects s f node.data.FileName eff
            match r with
            | .EDR_HDLINK => some (incNumLinks s ptr, .eliminated .EDR_HDLINK)
            | .EDR_DELETE => some (s, .eliminated .EDR_DELETE)
            | .EDR_NO_OP => some (s, .eliminated .EDR_NO_OP)
            | .EDR_SKIP_RO => some (s, .eliminated .EDR_SKIP_RO)
            | .EDR_HDLINK_LIMIT => some (s, .eliminated .EDR_HDLINK_LIMIT)
            | .EDR_NOT_DUPE =>
              if node.Same ≠ 0 then walkLoop cfg f fuel node.Same s
              else some (storeIt (setSame s ptr s.FileData.length) f, .stored)
        else
          match chainAppend s (fuel + 1) ptr with
          | none => none
          | some s' => some (storeIt s' f, .stored)
      else if comp > 0 then
        if node.Larger = 0 then
          some (storeIt (setLarger s ptr s.FileData.length) f, .stored)
        else walkLoop cfg f fuel node.Larger s
      else
        if node.Smaller = 0 then
          some (storeIt (setSmaller s ptr s.FileData.length) f, .stored)
        else walkLoop cfg f fuel node.Smaller s

/-- `DupeStats.TotalFiles += 1; DupeStats.TotalBytes += ThisFile.FileSize`
(finddupe.c lines 380-381). -/
def bumpTotals (s : ScanState) (f : FileData_t) : ScanState :=
  { s with stats :=
      { s.stats with
        TotalFiles := s.stats.TotalFiles + 1
        TotalBytes := s.stats.TotalBytes + f.FileSize } }

/-- `CheckDuplicate` (finddupe.c lines 375-473): bump the total counters,
store directly into an empty structure, otherwise search from slot 1. -/
def CheckDuplicate (cfg : Config) (s : ScanState) (f : FileData_t) :
    Option (ScanState × InsOutcome) :=
  if (bumpTotals s f).FileData.length = 1 then some (storeIt (bumpTotals s f) f, .stored)
  else walkLoop cfg f (bumpTotals s f).FileData.length 1 (bumpTotals s f)

/-! ## ProcessFile (finddupe.c lines 504-668) and the scan loop -/

/-- One candidate path handed to `ProcessFile` by the traversal, together
with the outcome of each filesystem call the function makes on it:
`statOk` for `_wstat64`, `createFileOk` for `CreateFileW`, `getInfoOk`
for `GetFileInformationByHandle`, `fopenOk`/`readOk` for the signature
prefix `_wfopen_s`/`fread`, `verifyOpenOk` for the later `_wfopen_s`
inside `EliminateDuplicate`, and `nameIsBatchFile` for the
`wcscmp(FileName, BatchFileName)` comparison. -/
structure Candidate where
  FileName : String
  statOk : Bool
  FileSize : Nat
  createFileOk : Bool
  getInfoOk : Bool
  nNumberOfLinks : Nat
  nFileIndexHigh : Nat
  nFileIndexLow : Nat
  fopenOk : Bool
  readOk : Bool
  content : List Nat
  readonly : Bool
  verifyOpenOk : Bool
  nameIsBatchFile : Bool
  deriving Repr, DecidableEq

/-- How `ProcessFile` disposed of one candidate. -/
inductive PFResult where
  | skippedBatchFileName
  | cantRead
  | zeroLength
  | notHardlinked
  | prefixOpenFailed
  | prefixReadFailed
  | checked (o : InsOutcome)
  deriving Repr, DecidableEq

/-- `DupeStats.CantReadFiles += 1` (the `cant_read_file:` label). -/
def cantReadState (s : ScanState) : ScanState :=
  { s with stats := { s.stats with CantReadFiles := s.stats.CantReadFiles + 1 } }

/-- `DupeStats.ZeroLengthFiles += 1` (finddupe.c line 552). -/
def zeroLenState (s : ScanState) : ScanState :=
  { s with stats := { s.stats with ZeroLengthFiles := s.stats.ZeroLengthFiles + 1 } }

/-- The record `ProcessFile` builds for a candidate: in hardlink-search
mode the file index doubles as the checksum (finddupe.c lines 608-614),
otherwise the checksum is the 32 KiB-prefix signature (lines 617-661). -/
def buildRecord (cfg : Config) (c : Candidate) : FileData_t :=
  if cfg.HardlinkSearchMode then
    ⟨c.nFileIndexHigh, c.nFileIndexLow, c.nFileIndexHigh, c.nFileIndexLow,
      c.nNumberOfLinks, c.FileSize, c.FileName, c.content, c.readonly, c.verifyOpenOk⟩
  else
    let sig := fileSignature c.content c.FileSize
    ⟨sig.Crc, sig.Sum, c.nFileIndexHigh, c.nFileIndexLow,
      c.nNumberOfLinks, c.FileSize, c.FileName, c.content, c.readonly, c.verifyOpenOk⟩

/-- `ProcessFile` (finddupe.c lines 504-668), minus the progress display:
skip the batch file itself; a stat / `CreateFileW` /
`GetFileInformationByHandle` failure is counted in `CantReadFiles` and
skipped; zero-length files are counted and skipped when `SkipZeroLength`;
single-link files are skipped in hardlink-search mode; a failure to open or
fully read the signature prefix skips the file without touching any
counter (lines 629-649); otherwise the record goes to `CheckDuplicate`. -/
def ProcessFile (cfg : Config) (s : ScanState) (c : Candidate) :
    Option (ScanState × PFResult) :=
  if cfg.BatchFile ∧ c.nameIsBatchFile then some (s, .skippedBatchFileName)
  else if ¬c.statOk then some (cantReadState s, .cantRead)
  else if c.FileSize = 0 ∧ cfg.SkipZeroLength then some (zeroLenState s, .zeroLength)
  else if ¬c.createFileOk then some (cantReadState s, .cantRead)
  else if ¬c.getInfoOk then some (cantReadState s, .cantRead)
  else if cfg.HardlinkSearchMode ∧ c.nNumberOfLinks = 1 then some (s, .notHardlinked)
  else if ¬cfg.HardlinkSearchMode ∧ ¬c.fopenOk then some (s, .prefixOpenFailed)
  else if ¬cfg.HardlinkSearchMode ∧ ¬c.readOk then some (s, .prefixReadFailed)
  else
    match CheckDuplicate cfg s (buildRecord cfg c) with
    | none => none
    | some (s', o) => some (s', .checked o)

/-- The scan loop over the candidate sequence (`MyGlob` calling
`ProcessFile` per match).  A `fatalRun` outcome is `exit(EXIT_FAILURE)`:
no further candidate is processed. -/
def ProcessFiles (cfg : Config) : ScanState → List Candidate →
    Option (ScanState × List PFResult)
  | s, [] => some (s, [])
  | s, c :: cs =>
    match ProcessFile cfg s c with
    | none => none
    | some (s', .checked .fatalRun) => some (s', [.checked .fatalRun])
    | some (s', r) =>
      match ProcessFiles cfg s' cs with
      | none => none
      | some (s'', rs) => some (s'', r :: rs)

/-- The state at program start: slot 0 of `FileData` unused
(`NumUnique = 1`), all counters zero. -/
def initState : ScanState :=
  ⟨[⟨⟨0, 0, 0, 0, 0, 0, "", [], false, false⟩, 0, 0, 0⟩], ⟨0, 0, 0, 0, 0, 0, 0⟩, []⟩

/-- The names of the records held by the grouping structure, in slot
order (slot 0 is the unused sentinel). -/
def storedNames (s : ScanState) : List String :=
  (s.FileData.drop 1).map (fun n => n.data.FileName)

/-- A link value is well formed at slot `i` when it is nil (0) or points
strictly forward to an existing slot. -/
def linkOk (len i v : Nat) : Prop := v = 0 ∨ (i < v ∧ v < len)

/-- Well-formedness of the grouping structure: at least the sentinel slot
exists, links point strictly forward (slots are only ever linked to
newer slots), and `same`-chain successors carry the same checksum image. -/
def WF (s : ScanState) : Prop :=
  0 < s.FileData.length ∧
  ∀ i node, s.FileData[i]? = some node →
    linkOk s.FileData.length i node.Larger ∧
    linkOk s.FileData.length i node.Smaller ∧
    linkOk s.FileData.length i node.Same ∧
    (node.Same ≠ 0 → ∀ node', s.FileData[node.Same]? = some node' →
      checksumBytes node'.data.Crc node'.data.Sum = checksumBytes node.data.Crc node.data.Sum)

/-! ### Small facts about the state operations -/

lemma memcmpBytes_self : ∀ l : List Nat, memcmpBytes l l = 0 := by
  intro l
  induction l with
  | nil => rfl
  | cons a t ih => simp [memcmpBytes, ih]

lemma memcmpBytes_eq_zero : ∀ l1 l2 : List Nat, memcmpBytes l1 l2 = 0 → l1 = l2 := by
  intro l1
  induction l1 with
  | nil => intro l2 h; cases l2 with
    | nil => rfl
    | cons b bs => simp [memcmpBytes] at h
  | cons a as ih =>
    intro l2 h
    cases l2 with
    | nil => simp [memcmpBytes] at h
    | cons b bs =>
      unfold memcmpBytes at h
      by_cases hab : a < b
      · rw [if_pos hab] at h; exact absurd h (by decide)
      · rw [if_neg hab] at h
        by_cases hba : b < a
        · rw [if_pos hba] at h; exact absurd h (by decide)
        · rw [if_neg hba] at h
          have : a = b := by omega
          rw [this, ih bs h]

lemma compChecksum_eq_zero_iff (f g : FileData_t) :
    compChecksum f g = 0 ↔
      checksumBytes f.Crc f.Sum = checksumBytes g.Crc g.Sum := by
  constructor
  · exact fun h => memcmpBytes_eq_zero _ _ h
  · intro h; unfold compChecksum; rw [h]; exact memcmpBytes_self _

lemma applyEDEffects_FileData (s : ScanState) (f : FileData_t) (n : String)
    (eff : Effects) : (applyEDEffects s f n eff).FileData = s.FileData := by
  unfold applyEDEffects
  split <;> split <;> rfl

lemma cantReadState_FileData (s : ScanState) :
    (cantReadState s).FileData = s.FileData := rfl

lemma zeroLenState_FileData (s : ScanState) :
    (zeroLenState s).FileData = s.FileData := rfl

lemma storedNames_eq_of_FileData (s t : ScanState)
    (h : s.FileData = t.FileData) : storedNames s = storedNames t := by
  unfold storedNames; rw [h]

lemma WF_of_FileData (s t : ScanState) (h : s.FileData = t.FileData)
    (hWF : WF s) : WF t := by
  unfold WF at *; rw [← h]; exact hWF

lemma storeIt_FileData (s : ScanState) (f : FileData_t) :
    (storeIt s f).FileData = s.FileData ++ [⟨f, 0, 0, 0⟩] := rfl

lemma storedNames_append (s : ScanState) (f : FileData_t) (h : 0 < s.FileData.length) :
    storedNames (storeIt s f) = storedNames s ++ [f.FileName] := by
  unfold storedNames storeIt
  simp only
  rw [List.drop_append_of_le_length (by omega), List.map_append]
  rfl

lemma storedNames_modify (s : ScanState) (i : Nat) (g : Node → Node)
    (hg : ∀ n, (g n).data.FileName = n.data.FileName) :
    storedNames { s with FileData := s.FileData.modify g i } = storedNames s := by
  unfold storedNames
  apply List.ext_getElem?
  intro j
  simp only [List.getElem?_drop, List.getElem?_map, List.getElem?_modify]
  cases h : s.FileData[1 + j]? with
  | none => rfl
  | some node => simp only [Option.map_some']; split <;> simp [hg]

lemma storedNames_setSame (s : ScanState) (i v : Nat) :
    storedNames (setSame s i v) = storedNames s :=
  storedNames_modify s i _ (fun _ => rfl)

lemma storedNames_setLarger (s : ScanState) (i v : Nat) :
    storedNames (setLarger s i v) = storedNames s :=
  storedNames_modify s i _ (fun _ => rfl)

lemma storedNames_setSmaller (s : ScanState) (i v : Nat) :
    storedNames (setSmaller s i v) = storedNames s :=
  storedNames_modify s i _ (fun _ => rfl)

lemma storedNames_incNumLinks (s : ScanState) (i : Nat) :
    storedNames (incNumLinks s i) = storedNames s :=
  storedNames_modify s i _ (fun _ => rfl)

/-! ### Preservation of well-formedness -/

lemma linkOk_mono {len i v : Nat} (h : linkOk len i v) : linkOk (len + 1) i v := by
  unfold linkOk at *; omega

lemma WF_initState : WF initState := by
  refine ⟨by decide, ?_⟩
  intro i node h
  have hi : i = 0 := by
    by_contra hne
    rw [List.getElem?_eq_none (by simp [initState]; omega)] at h
    exact Option.noConfusion h
  subst hi
  have : node = ⟨⟨0, 0, 0, 0, 0, 0, "", [], false, false⟩, 0, 0, 0⟩ := by
    simpa [initState] using h.symm
  subst this
  exact ⟨Or.inl rfl, Or.inl rfl, Or.inl rfl, fun hne => absurd rfl hne⟩

/-- Appending a fresh record (all links nil) preserves well-formedness. -/
lemma WF_storeIt (s : ScanState) (f : FileData_t) (hWF : WF s) :
    WF (storeIt s f) := by
  obtain ⟨hlen, hnodes⟩ := hWF
  refine ⟨by simp [storeIt], ?_⟩
  intro i node h
  rw [storeIt_FileData, List.getElem?_append] at h
  simp only [List.length_append, List.length_cons, List.length_nil, storeIt_FileData]
  by_cases hi : i < s.FileData.length
  · rw [if_pos hi] at h
    obtain ⟨h1, h2, h3, h4⟩ := hnodes i node h
    refine ⟨linkOk_mono h1, linkOk_mono h2, linkOk_mono h3, ?_⟩
    intro hne node' h'
    have hlt : node.Same < s.FileData.length := by
      rcases h3 with h3 | h3
      · exact absurd h3 hne
      · exact h3.2
    rw [List.getElem?_append, if_pos hlt] at h'
    exact h4 hne node' h'
  · rw [if_neg hi] at h
    have hi2 : i - s.FileData.length = 0 := by
      by_contra hne
      rw [List.getElem?_eq_none (by simp; omega)] at h
      exact Option.noConfusion h
    rw [hi2] at h
    simp only [List.getElem?_cons_zero, Option.some.injEq] at h
    subst h
    exact ⟨Or.inl rfl, Or.inl rfl, Or.inl rfl, fun hne => absurd rfl hne⟩

/-- Setting one link of slot `i` to the index of a simultaneously appended
fresh record preserves well-formedness, as long as the link update keeps
the other two links and the payload, and a `Same` link to the new record
is only created when the checksums agree. -/
lemma WF_modify_append (s : ScanState) (i : Nat) (g : Node → Node) (f : FileData_t)
    (hWF : WF s) (hi : i < s.FileData.length)
    (hdata : ∀ n, (g n).data = n.data)
    (hlinkL : ∀ n, (g n).Larger = n.Larger ∨ (g n).Larger = s.FileData.length)
    (hlinkS : ∀ n, (g n).Smaller = n.Smaller ∨ (g n).Smaller = s.FileData.length)
    (hlinkQ : ∀ n, (g n).Same = n.Same ∨
      ((g n).Same = s.FileData.length ∧ ∀ n0, s.FileData[i]? = some n0 →
        checksumBytes f.Crc f.Sum = checksumBytes n0.data.Crc n0.data.Sum)) :
    WF (storeIt { s with FileData := s.FileData.modify g i } f) := by
  obtain ⟨hlen, hnodes⟩ := hWF
  have hmlen : (s.FileData.modify g i).length = s.FileData.length := List.length_modify ..
  refine ⟨by simp [storeIt, hmlen], ?_⟩
  intro j node h
  rw [storeIt_FileData] at h
  rw [List.getElem?_append, hmlen] at h
  simp only [storeIt_FileData, List.length_append, List.length_cons, List.length_nil, hmlen]
  by_cases hj : j < s.FileData.length
  · rw [if_pos hj, List.getElem?_modify] at h
    cases hold : s.FileData[j]? with
    | none => rw [hold] at h; exact Option.noConfusion h
    | some nold =>
      rw [hold] at h
      simp only [Option.map_eq_map, Option.map_some', Option.some.injEq] at h
      obtain ⟨h1, h2, h3, h4⟩ := hnodes j nold hold
      have hfetch : ∀ v, v ≠ 0 → linkOk s.FileData.length j v →
          ((s.FileData.modify g i ++ [⟨f, 0, 0, 0⟩])[v]? = ((fun a => if i = v then g a else a) <$> s.FileData[v]?)) := by
        intro v hv hok
        have hvlt : v < s.FileData.length := by
          rcases hok with h' | h' ; exact absurd h' hv ; exact h'.2
        rw [List.getElem?_append, hmlen, if_pos hvlt, List.getElem?_modify]
      by_cases hij : i = j
      · subst hij
        rw [if_pos rfl] at h
        subst h
        refine ⟨?_, ?_, ?_, ?_⟩
        · rcases hlinkL nold with hL | hL <;> rw [hL]
          · exact linkOk_mono h1
          · exact Or.inr (by omega)
        · rcases hlinkS nold with hS | hS <;> rw [hS]
          · exact linkOk_mono h2
          · exact Or.inr (by omega)
        · rcases hlinkQ nold with hQ | hQ
          · rw [hQ]; exact linkOk_mono h3
          · rw [hQ.1]; exact Or.inr (by omega)
        · intro hne node' h'
          rcases hlinkQ nold with hQ | hQ
          · rw [hQ] at hne h'
            rw [hfetch nold.Same hne h3] at h'
            cases hold2 : s.FileData[nold.Same]? with
            | none => rw [hold2] at h'; exact Option.noConfusion h'
            | some ntgt =>
              rw [hold2] at h'
              simp only [Option.map_eq_map, Option.map_some', Option.some.injEq] at h'
              subst h'
              rw [hdata nold]
              split
              · rw [hdata ntgt]; exact h4 hne ntgt hold2
              · exact h4 hne ntgt hold2
          · rw [hQ.1] at h'
            rw [List.getElem?_append, hmlen, if_neg (by omega), Nat.sub_self] at h'
            simp only [List.getElem?_cons_zero, Option.some.injEq] at h'
            subst h'
            simp only [hdata nold]
            exact hQ.2 nold hold
      · rw [if_neg hij] at h
        subst h
        refine ⟨linkOk_mono h1, linkOk_mono h2, linkOk_mono h3, ?_⟩
        intro hne node' h'
        rw [hfetch nold.Same hne h3] at h'
        cases hold2 : s.FileData[nold.Same]? with
        | none => rw [hold2] at h'; exact Option.noConfusion h'
        | some ntgt =>
          rw [hold2] at h'
          simp only [Option.map_eq_map, Option.map_some', Option.some.injEq] at h'
          subst h'
          split
          · rw [hdata ntgt]; exact h4 hne ntgt hold2
          · exact h4 hne ntgt hold2
  · rw [if_neg hj] at h
    have hj2 : j - s.FileData.length = 0 := by
      by_contra hne
      rw [List.getElem?_eq_none (by simp; omega)] at h
      exact Option.noConfusion h
    rw [hj2] at h
    simp only [List.getElem?_cons_zero, Option.some.injEq] at h
    subst h
    exact ⟨Or.inl rfl, Or.inl rfl, Or.inl rfl, fun hne => absurd rfl hne⟩

/-- A payload-only update (the `NumLinks += 1` of the `EDR_HDLINK` case)
preserves well-formedness. -/
lemma WF_incNumLinks (s : ScanState) (i : Nat) (hWF : WF s) :
    WF (incNumLinks s i) := by
  obtain ⟨hlen, hnodes⟩ := hWF
  have hmlen : ((incNumLinks s i).FileData).length = s.FileData.length :=
    List.length_modify ..
  have hget : ∀ m : Nat, (incNumLinks s i).FileData[m]? =
      (fun a => if i = m then { a with data := { a.data with NumLinks := a.data.NumLinks + 1 } } else a) <$> s.FileData[m]? :=
    fun m => List.getElem?_modify ..
  refine ⟨by rw [hmlen]; exact hlen, ?_⟩
  intro j node h
  rw [hget j] at h
  rw [hmlen]
  cases hold : s.FileData[j]? with
  | none => rw [hold] at h; exact Option.noConfusion h
  | some nold =>
    rw [hold] at h
    simp only [Option.map_eq_map, Option.map_some', Option.some.injEq] at h
    obtain ⟨h1, h2, h3, h4⟩ := hnodes j nold hold
    have hLi : node.Larger = nold.Larger := by rw [← h]; split <;> rfl
    have hSm : node.Smaller = nold.Smaller := by rw [← h]; split <;> rfl
    have hSa : node.Same = nold.Same := by rw [← h]; split <;> rfl
    have hCrc : node.data.Crc = nold.data.Crc := by rw [← h]; split <;> rfl
    have hSum : node.data.Sum = nold.data.Sum := by rw [← h]; split <;> rfl
    rw [hLi, hSm, hSa, hCrc, hSum]
    refine ⟨h1, h2, h3, ?_⟩
    intro hne node' h'
    rw [hget nold.Same] at h'
    cases hold2 : s.FileData[nold.Same]? with
    | none => rw [hold2] at h'; exact Option.noConfusion h'
    | some ntgt =>
      rw [hold2] at h'
      simp only [Option.map_eq_map, Option.map_some', Option.some.injEq] at h'
      have hCrc' : node'.data.Crc = ntgt.data.Crc := by rw [← h']; split <;> rfl
      have hSum' : node'.data.Sum = ntgt.data.Sum := by rw [← h']; split <;> rfl
      rw [hCrc', hSum']
      exact h4 hne ntgt hold2

/-- Wrapper of `WF_modify_append` for `setSame` at the chain end. -/
lemma WF_storeIt_setSame (s : ScanState) (i : Nat) (f : FileData_t)
    (hWF : WF s) (hi : i < s.FileData.length)
    (hchk : ∀ n0, s.FileData[i]? = some n0 →
      checksumBytes f.Crc f.Sum = checksumBytes n0.data.Crc n0.data.Sum) :
    WF (storeIt (setSame s i s.FileData.length) f) :=
  WF_modify_append s i _ f hWF hi (fun _ => rfl)
    (fun n => Or.inl rfl) (fun n => Or.inl rfl)
    (fun n => Or.inr ⟨rfl, hchk⟩)

/-- Wrapper of `WF_modify_append` for `setLarger`. -/
lemma WF_storeIt_setLarger (s : ScanState) (i : Nat) (f : FileData_t)
    (hWF : WF s) (hi : i < s.FileData.length) :
    WF (storeIt (setLarger s i s.FileData.length) f) :=
  WF_modify_append s i _ f hWF hi (fun _ => rfl)
    (fun n => Or.inr rfl) (fun n => Or.inl rfl) (fun n => Or.inl rfl)

/-- Wrapper of `WF_modify_append` for `setSmaller`. -/
lemma WF_storeIt_setSmaller (s : ScanState) (i : Nat) (f : FileData_t)
    (hWF : WF s) (hi : i < s.FileData.length) :
    WF (storeIt (setSmaller s i s.FileData.length) f) :=
  WF_modify_append s i _ f hWF hi (fun _ => rfl)
    (fun n => Or.inl rfl) (fun n => Or.inr rfl) (fun n => Or.inl rfl)

/-- Adequacy and characterization of the reference-mode chain walk: from a
valid slot it finds the chain end (same checksum image as the start, by
the chain invariant) and links the upcoming record there. -/
lemma chainAppend_spec (s : ScanState) (hWF : WF s) :
    ∀ fuel ptr nodeP, s.FileData[ptr]? = some nodeP → 0 < ptr →
      s.FileData.length ≤ fuel + ptr →
      ∃ last nodeL, chainAppend s fuel ptr = some (setSame s last s.FileData.length) ∧
        0 < last ∧ last < s.FileData.length ∧ s.FileData[last]? = some nodeL ∧
        nodeL.Same = 0 ∧
        checksumBytes nodeL.data.Crc nodeL.data.Sum =
          checksumBytes nodeP.data.Crc nodeP.data.Sum := by
  intro fuel
  induction fuel with
  | zero =>
    intro ptr nodeP hP hp0 hfuel
    have hlt : ptr < s.FileData.length := by
      by_contra hge
      rw [List.getElem?_eq_none (by omega)] at hP
      exact Option.noConfusion hP
    omega
  | succ n ih =>
    intro ptr nodeP hP hp0 hfuel
    have hlt : ptr < s.FileData.length := by
      by_contra hge
      rw [List.getElem?_eq_none (by omega)] at hP
      exact Option.noConfusion hP
    simp only [chainAppend]
    rw [hP]
    dsimp only
    by_cases hs : nodeP.Same ≠ 0
    · rw [if_pos hs]
      obtain ⟨-, hnodes⟩ := hWF
      obtain ⟨-, -, h3, h4⟩ := hnodes ptr nodeP hP
      have hrange : ptr < nodeP.Same ∧ nodeP.Same < s.FileData.length := by
        rcases h3 with h3 | h3
        · exact absurd h3 hs
        · exact h3
      obtain ⟨nodeQ, hQ⟩ : ∃ nodeQ, s.FileData[nodeP.Same]? = some nodeQ := by
        cases hq : s.FileData[nodeP.Same]? with
        | none =>
          rw [List.getElem?_eq_none_iff] at hq
          omega
        | some nodeQ => exact ⟨nodeQ, rfl⟩
      obtain ⟨last, nodeL, heq, hl0, hllen, hL, hLS, hLchk⟩ :=
        ih nodeP.Same nodeQ hQ (by omega) (by omega)
      exact ⟨last, nodeL, heq, hl0, hllen, hL, hLS,
        hLchk.trans (h4 hs nodeQ hQ)⟩
    · rw [if_neg hs]
      exact ⟨ptr, nodeP, rfl, hp0, hlt, hP, not_not.mp hs, rfl⟩

/-- Adequacy of the search loop and its storage discipline: from a valid
slot of a well-formed state, `walkLoop` terminates and either appends
exactly the incoming record (outcome `stored`) or leaves the stored
records unchanged (a confirmed-duplicate outcome, in which case the
verdict was a duplicate verdict, or a fatal abort); well-formedness is
preserved. -/
lemma walkLoop_spec (cfg : Config) (f : FileData_t) :
    ∀ fuel ptr s, WF s → 0 < ptr → ptr < s.FileData.length →
      s.FileData.length ≤ fuel + ptr →
      ∃ s' o, walkLoop cfg f fuel ptr s = some (s', o) ∧ WF s' ∧
        (o = .stored → storedNames s' = storedNames s ++ [f.FileName]) ∧
        (∀ r, o = .eliminated r → storedNames s' = storedNames s ∧ isDuplicateRes r = true) ∧
        (o = .fatalRun → storedNames s' = storedNames s) := by
  intro fuel
  induction fuel with
  | zero => intro ptr s _ h0 hlt hfuel; omega
  | succ n ih =>
    intro ptr s hWF hp0 hplen hfuel
    obtain ⟨nodeP, hP⟩ : ∃ nodeP, s.FileData[ptr]? = some nodeP := by
      cases hq : s.FileData[ptr]? with
      | none => rw [List.getElem?_eq_none_iff] at hq; omega
      | some nodeP => exact ⟨nodeP, rfl⟩
    simp only [walkLoop]
    rw [hP]
    dsimp only
    by_cases hcz : compChecksum f nodeP.data = 0
    · rw [if_pos hcz]
      by_cases hmode : ¬cfg.ReferenceFiles ∧ ¬cfg.HardlinkSearchMode
      · rw [if_pos hmode]
        cases hED : EliminateDuplicate cfg f nodeP.data with
        | fatal =>
          exact ⟨s, .fatalRun, rfl, hWF, by simp, by simp, fun _ => rfl⟩
        | ok r eff =>
          have hFD : (applyEDEffects s f nodeP.data.FileName eff).FileData = s.FileData :=
            applyEDEffects_FileData ..
          have hWF1 : WF (applyEDEffects s f nodeP.data.FileName eff) :=
            WF_of_FileData s _ hFD.symm hWF
          have hSN1 : storedNames (applyEDEffects s f nodeP.data.FileName eff) = storedNames s :=
            storedNames_eq_of_FileData _ _ hFD
          cases r with
          | EDR_HDLINK =>
            refine ⟨_, _, rfl, WF_incNumLinks _ _ hWF1, by simp, ?_, by simp⟩
            intro r hr
            cases hr
            exact ⟨(storedNames_incNumLinks _ _).trans hSN1, rfl⟩
          | EDR_DELETE =>
            refine ⟨_, _, rfl, hWF1, by simp, ?_, by simp⟩
            intro r hr
            cases hr
            exact ⟨hSN1, rfl⟩
          | EDR_NO_OP =>
            refine ⟨_, _, rfl, hWF1, by simp, ?_, by simp⟩
            intro r hr
            cases hr
            exact ⟨hSN1, rfl⟩
          | EDR_SKIP_RO =>
            refine ⟨_, _, rfl, hWF1, by simp, ?_, by simp⟩
            intro r hr
            cases hr
            exact ⟨hSN1, rfl⟩
          | EDR_HDLINK_LIMIT =>
            refine ⟨_, _, rfl, hWF1, by simp, ?_, by simp⟩
            intro r hr
            cases hr
            exact ⟨hSN1, rfl⟩
          | EDR_NOT_DUPE =>
            dsimp only
            have hnodes := hWF.2
            obtain ⟨-, -, h3, -⟩ := hnodes ptr nodeP hP
            by_cases hsame : nodeP.Same ≠ 0
            · rw [if_pos hsame]
              have hrange : ptr < nodeP.Same ∧ nodeP.Same < s.FileData.length := by
                rcases h3 with h3 | h3
                · exact absurd h3 hsame
                · exact h3
              obtain ⟨s', o, heq, hWF', hst, hel, hfa⟩ :=
                ih nodeP.Same (applyEDEffects s f nodeP.data.FileName eff) hWF1
                  (by omega) (by rw [hFD]; omega) (by rw [hFD]; omega)
              exact ⟨s', o, heq, hWF',
                fun h => (hst h).trans (by rw [hSN1]),
                fun r hr => ⟨((hel r hr).1).trans hSN1, (hel r hr).2⟩,
                fun h => (hfa h).trans hSN1⟩
            · rw [if_neg hsame]
              have hchk : ∀ n0,
                  (applyEDEffects s f nodeP.data.FileName eff).FileData[ptr]? = some n0 →
                  checksumBytes f.Crc f.Sum = checksumBytes n0.data.Crc n0.data.Sum := by
                intro n0 h0
                rw [hFD, hP] at h0
                cases h0
                exact (compChecksum_eq_zero_iff f nodeP.data).mp hcz
              refine ⟨_, _, rfl, WF_storeIt_setSame _ ptr f hWF1 (by rw [hFD]; omega) hchk,
                fun _ => ?_, by simp, by simp⟩
              rw [storedNames_append _ f
                (by unfold setSame; simp only [List.length_modify]; rw [hFD]; omega),
                storedNames_setSame, hSN1]
      · rw [if_neg hmode]
        obtain ⟨last, nodeL, heq, hl0, hllen, hL, hLS, hLchk⟩ :=
          chainAppend_spec s hWF (n + 1) ptr nodeP hP hp0 (by omega)
        rw [heq]
        dsimp only
        have hchk : ∀ n0, s.FileData[last]? = some n0 →
            checksumBytes f.Crc f.Sum = checksumBytes n0.data.Crc n0.data.Sum := by
          intro n0 h0
          rw [hL] at h0
          cases h0
          exact ((compChecksum_eq_zero_iff f nodeP.data).mp hcz).trans hLchk.symm
        refine ⟨_, _, rfl, WF_storeIt_setSame s last f hWF hllen hchk,
          fun _ => ?_, by simp, by simp⟩
        rw [storedNames_append _ f
          (by unfold setSame; simp only [List.length_modify]; omega),
          storedNames_setSame]
    · rw [if_neg hcz]
      have hnodes := hWF.2
      obtain ⟨h1, h2, -, -⟩ := hnodes ptr nodeP hP
      by_cases hgt : compChecksum f nodeP.data > 0
      · rw [if_pos hgt]
        by_cases hL0 : nodeP.Larger = 0
        · rw [if_pos hL0]
          refine ⟨_, _, rfl, WF_storeIt_setLarger s ptr f hWF hplen,
            fun _ => ?_, by simp, by simp⟩
          rw [storedNames_append _ f
            (by unfold setLarger; simp only [List.length_modify]; omega),
            storedNames_setLarger]
        · rw [if_neg hL0]
          have hrange : ptr < nodeP.Larger ∧ nodeP.Larger < s.FileData.length := by
            rcases h1 with h1 | h1
            · exact absurd h1 hL0
            · exact h1
          exact ih nodeP.Larger s hWF (by omega) (by omega) (by omega)
      · rw [if_neg hgt]
        by_cases hS0 : nodeP.Smaller = 0
        · rw [if_pos hS0]
          refine ⟨_, _, rfl, WF_storeIt_setSmaller s ptr f hWF hplen,
            fun _ => ?_, by simp, by simp⟩
          rw [storedNames_append _ f
            (by unfold setSmaller; simp only [List.length_modify]; omega),
            storedNames_setSmaller]
        · rw [if_neg hS0]
          have hrange : ptr < nodeP.Smaller ∧ nodeP.Smaller < s.FileData.length := by
            rcases h2 with h2 | h2
            · exact absurd h2 hS0
            · exact h2
          exact ih nodeP.Smaller s hWF (by omega) (by omega) (by omega)

/-- Adequacy and storage discipline of `CheckDuplicate`. -/
lemma CheckDuplicate_spec (cfg : Config) (s : ScanState) (f : FileData_t) (hWF : WF s) :
    ∃ s' o, CheckDuplicate cfg s f = some (s', o) ∧ WF s' ∧
      (o = .stored → storedNames s' = storedNames s ++ [f.FileName]) ∧
      (∀ r, o = .eliminated r → storedNames s' = storedNames s ∧ isDuplicateRes r = true) ∧
      (o = .fatalRun → storedNames s' = storedNames s) := by
  have hbFD : (bumpTotals s f).FileData = s.FileData := rfl
  have hbWF : WF (bumpTotals s f) := WF_of_FileData s _ hbFD.symm hWF
  have hbSN : storedNames (bumpTotals s f) = storedNames s :=
    storedNames_eq_of_FileData _ _ hbFD
  have hlen : 0 < s.FileData.length := hWF.1
  unfold CheckDuplicate
  rw [hbFD]
  by_cases hone : s.FileData.length = 1
  · rw [if_pos hone]
    refine ⟨_, _, rfl, WF_storeIt _ f hbWF, fun _ => ?_, by simp, by simp⟩
    rw [storedNames_append _ f (by rw [hbFD]; omega), hbSN]
  · rw [if_neg hone]
    obtain ⟨s', o, heq, hWF', hst, hel, hfa⟩ :=
      walkLoop_spec cfg f s.FileData.length 1 (bumpTotals s f) hbWF
        (by omega) (by rw [hbFD]; omega) (by rw [hbFD]; omega)
    exact ⟨s', o, heq, hWF', fun h => (hst h).trans (by rw [hbSN]),
      fun r hr => ⟨((hel r hr).1).trans hbSN, (hel r hr).2⟩,
      fun h => (hfa h).trans hbSN⟩

lemma buildRecord_FileName (cfg : Config) (c : Candidate) :
    (buildRecord cfg c).FileName = c.FileName := by
  unfold buildRecord; split <;> rfl

/-- Adequacy and storage discipline of `ProcessFile`: the scan state stays
well formed, the stored names grow by exactly the candidate's name when it
is stored and are untouched otherwise, and an `eliminated` outcome always
carries a duplicate verdict. -/
lemma ProcessFile_spec (cfg : Config) (s : ScanState) (c : Candidate) (hWF : WF s) :
    ∃ s' r, ProcessFile cfg s c = some (s', r) ∧ WF s' ∧
      storedNames s' = storedNames s ++
        (if r = .checked .stored then [c.FileName] else []) ∧
      (∀ e, r = .checked (.eliminated e) → isDuplicateRes e = true) := by
  unfold ProcessFile
  split_ifs with h1 h2 h3 h4 h5 h6 h7 h8
  all_goals first
  | · refine ⟨_, _, rfl, WF_of_FileData s _ rfl hWF, ?_, by simp⟩
      first
      | (rw [storedNames_eq_of_FileData (cantReadState s) s rfl]; simp)
      | (rw [storedNames_eq_of_FileData (zeroLenState s) s rfl]; simp)
      | simp
  | · obtain ⟨s', o, heq, hWF', hst, hel, hfa⟩ :=
        CheckDuplicate_spec cfg s (buildRecord cfg c) hWF
      rw [heq]
      dsimp only
      refine ⟨s', .checked o, rfl, hWF', ?_, ?_⟩
      · cases o with
        | stored => simpa [buildRecord_FileName] using hst rfl
        | eliminated r => simp [(hel r rfl).1]
        | fatalRun => simp [hfa rfl]
      · intro e he
        cases he
        exact (hel e rfl).2

/-- The names of the candidates flagged as stored, in scan order. -/
def storedOf : List Candidate → List PFResult → List String
  | c :: cs, r :: rs => (if r = .checked .stored then [c.FileName] else []) ++ storedOf cs rs
  | _, _ => []

/-- Adequacy and storage discipline of the scan loop. -/
lemma ProcessFiles_spec (cfg : Config) :
    ∀ cands s, WF s →
      ∃ s' rs, ProcessFiles cfg s cands = some (s', rs) ∧ WF s' ∧
        storedNames s' = storedNames s ++ storedOf cands rs ∧
        (∀ pr ∈ rs, ∀ e, pr = .checked (.eliminated e) → isDuplicateRes e = true) := by
  intro cands
  induction cands with
  | nil =>
    intro s hWF
    exact ⟨s, [], rfl, hWF, by simp [storedOf], by simp⟩
  | cons c cs ih =>
    intro s hWF
    obtain ⟨s1, r, heq, hWF1, hnames, helim⟩ := ProcessFile_spec cfg s c hWF
    have generic : r ≠ .checked .fatalRun →
        ∃ s' rs, ProcessFiles cfg s (c :: cs) = some (s', rs) ∧ WF s' ∧
          storedNames s' = storedNames s ++ storedOf (c :: cs) rs ∧
          (∀ pr ∈ rs, ∀ e, pr = .checked (.eliminated e) → isDuplicateRes e = true) := by
      intro hnf
      obtain ⟨s2, rs, heq2, hWF2, hnames2, helim2⟩ := ih s1 hWF1
      refine ⟨s2, r :: rs, ?_, hWF2, ?_, ?_⟩
      · simp only [ProcessFiles]
        rw [heq]
        cases r with
        | checked o => cases o with
          | fatalRun => exact absurd rfl hnf
          | stored => dsimp only; rw [heq2]
          | eliminated r0 => dsimp only; rw [heq2]
        | skippedBatchFileName => dsimp only; rw [heq2]
        | cantRead => dsimp only; rw [heq2]
        | zeroLength => dsimp only; rw [heq2]
        | notHardlinked => dsimp only; rw [heq2]
        | prefixOpenFailed => dsimp only; rw [heq2]
        | prefixReadFailed => dsimp only; rw [heq2]
      · rw [hnames2, hnames, storedOf]
        simp [List.append_assoc]
      · intro pr hpr e he
        rcases List.mem_cons.mp hpr with h | h
        · subst h; exact helim e he
        · exact helim2 pr h e he
    by_cases hr : r = .checked .fatalRun
    · subst hr
      refine ⟨s1, [.checked .fatalRun], ?_, hWF1, ?_, ?_⟩
      · simp only [ProcessFiles]
        rw [heq]
      · rw [hnames]
        simp [storedOf]
      · intro pr hpr e he
        simp only [List.mem_singleton] at hpr
        subst hpr
        exact absurd he (by simp)
    · exact generic hr

/-- C3: after processing any sequence of candidates from the initial
state, the grouping structure holds exactly one record — in scan order —
for each candidate whose outcome was `stored`, and holds no record for
any candidate the engine eliminated (every `eliminated` outcome carries a
duplicate verdict: `EDR_HDLINK`, `EDR_DELETE`, `EDR_NO_OP`,
`EDR_SKIP_RO` or `EDR_HDLINK_LIMIT`, so a confirmed duplicate left on
disk by a skipped-read-only, link-limit or report-only outcome is still
never stored). -/
theorem grouping_structure_exact (cfg : Config) (cands : List Candidate) :
    ∃ s' rs, ProcessFiles cfg initState cands = some (s', rs) ∧
      storedNames s' = storedOf cands rs ∧
      (∀ pr ∈ rs, ∀ e, pr = .checked (.eliminated e) → isDuplicateRes e = true) := by
  obtain ⟨s', rs, heq, -, hnames, helim⟩ := ProcessFiles_spec cfg cands initState WF_initState
  refine ⟨s', rs, heq, ?_, helim⟩
  rw [hnames]
  rfl

/-! ### The `same` chain (claim C4) -/

/-- The indices reachable from slot `ptr` along the `Same` links. -/
def chainFrom (fd : List Node) : Nat → Nat → List Nat
  | 0, _ => []
  | fuel + 1, ptr =>
    match fd[ptr]? with
    | none => []
    | some node => ptr :: (if node.Same = 0 then [] else chainFrom fd fuel node.Same)

/-- On a structure whose `Same` links increase strictly, `chainFrom` does
not depend on the fuel once the fuel covers the remaining slots. -/
lemma chainFrom_congr (fd : List Node)
    (hlinks : ∀ (i : Nat) (n : Node), fd[i]? = some n →
      n.Same = 0 ∨ (i < n.Same ∧ n.Same < fd.length)) :
    ∀ f1 f2 ptr, fd.length ≤ f1 + ptr → fd.length ≤ f2 + ptr →
      chainFrom fd f1 ptr = chainFrom fd f2 ptr := by
  intro f1
  induction f1 with
  | zero =>
    intro f2 ptr h1 h2
    cases f2 with
    | zero => rfl
    | succ m =>
      simp only [chainFrom]
      rw [List.getElem?_eq_none (by omega)]
  | succ n ih =>
    intro f2 ptr h1 h2
    cases f2 with
    | zero =>
      simp only [chainFrom]
      rw [List.getElem?_eq_none (by omega)]
    | succ m =>
      simp only [chainFrom]
      cases hP : fd[ptr]? with
      | none => rfl
      | some node =>
        dsimp only
        by_cases hs : node.Same = 0
        · rw [if_pos hs, if_pos hs]
        · rw [if_neg hs, if_neg hs]
          have hrange : ptr < node.Same ∧ node.Same < fd.length :=
            (hlinks ptr node hP).resolve_left hs
          rw [ih m node.Same (by omega) (by omega)]

/-- The `Same`-link monotonicity extracted from well-formedness. -/
lemma WF_links (s : ScanState) (hWF : WF s) :
    ∀ (i : Nat) (n : Node), s.FileData[i]? = some n →
      n.Same = 0 ∨ (i < n.Same ∧ n.Same < s.FileData.length) :=
  fun i n h => (hWF.2 i n h).2.2.1

lemma setSame_FileData (s : ScanState) (i v : Nat) :
    (setSame s i v).FileData = s.FileData.modify (fun n => { n with Same := v }) i := rfl

/-- One-step unfolding of `chainFrom` at a valid slot. -/
lemma chainFrom_cons (fd : List Node) (fuel ptr : Nat) (node : Node)
    (h : fd[ptr]? = some node) (hfuel : 0 < fuel) :
    chainFrom fd fuel ptr =
      ptr :: (if node.Same = 0 then [] else chainFrom fd (fuel - 1) node.Same) := by
  cases fuel with
  | zero => omega
  | succ m =>
    simp only [chainFrom]
    rw [h]
    simp [Nat.add_sub_cancel]

/-- The collision walk along a `same` chain whose every member refutes the
incoming record (each is re-verified by `EliminateDuplicate` and answers
`EDR_NOT_DUPE`): the walk reaches the chain end, appends the record there
and stores it at slot `NumUnique`. -/
lemma walkLoop_chain_append (cfg : Config) (f : FileData_t)
    (href : cfg.ReferenceFiles = false) (hhls : cfg.HardlinkSearchMode = false) :
    ∀ fuel ptr s nodeP, WF s → 0 < ptr → s.FileData[ptr]? = some nodeP →
      s.FileData.length ≤ fuel + ptr →
      checksumBytes f.Crc f.Sum = checksumBytes nodeP.data.Crc nodeP.data.Sum →
      (∀ (j : Nat) (nj : Node), j ∈ chainFrom s.FileData s.FileData.length ptr →
        s.FileData[j]? = some nj →
        ∃ e, EliminateDuplicate cfg f nj.data = .ok .EDR_NOT_DUPE e) →
      ∃ s' last, walkLoop cfg f fuel ptr s = some (s', .stored) ∧ WF s' ∧
        ptr ≤ last ∧ last < s.FileData.length ∧
        s'.FileData =
          (s.FileData.modify (fun n => { n with Same := s.FileData.length }) last)
            ++ [⟨f, 0, 0, 0⟩] ∧
        chainFrom s'.FileData s'.FileData.length ptr =
          chainFrom s.FileData s.FileData.length ptr ++ [s.FileData.length] := by
  intro fuel
  induction fuel with
  | zero =>
    intro ptr s nodeP hWF hp0 hP hfuel hsig hrefute
    have hlt : ptr < s.FileData.length := by
      by_contra hge
      rw [List.getElem?_eq_none (by omega)] at hP
      exact Option.noConfusion hP
    omega
  | succ n ih =>
    intro ptr s nodeP hWF hp0 hP hfuel hsig hrefute
    have hlt : ptr < s.FileData.length := by
      by_contra hge
      rw [List.getElem?_eq_none (by omega)] at hP
      exact Option.noConfusion hP
    have hlen : 0 < s.FileData.length := hWF.1
    have hcz : compChecksum f nodeP.data = 0 := (compChecksum_eq_zero_iff f nodeP.data).mpr hsig
    have hmode : ¬cfg.ReferenceFiles = true ∧ ¬cfg.HardlinkSearchMode = true := by
      simp [href, hhls]
    obtain ⟨e0, hED⟩ := hrefute ptr nodeP
      (by rw [chainFrom_cons s.FileData _ ptr nodeP hP hlen]; exact List.mem_cons_self _ _) hP
    simp only [walkLoop]
    rw [hP]
    dsimp only
    rw [if_pos hcz, if_pos hmode, hED]
    dsimp only
    have hFD1 : (applyEDEffects s f nodeP.data.FileName e0).FileData = s.FileData :=
      applyEDEffects_FileData ..
    have hWF1 : WF (applyEDEffects s f nodeP.data.FileName e0) :=
      WF_of_FileData s _ hFD1.symm hWF
    by_cases hs : nodeP.Same = 0
    · rw [if_neg (by simpa using hs)]
      have hchk : ∀ n0, (applyEDEffects s f nodeP.data.FileName e0).FileData[ptr]? = some n0 →
          checksumBytes f.Crc f.Sum = checksumBytes n0.data.Crc n0.data.Sum := by
        intro n0 h0
        rw [hFD1, hP] at h0
        cases h0
        exact hsig
      refine ⟨_, ptr, rfl, WF_storeIt_setSame _ ptr f hWF1 (by rw [hFD1]; omega) hchk,
        le_refl ptr, hlt, ?_, ?_⟩
      · rw [storeIt_FileData, setSame_FileData]
        simp only [hFD1]
      · have hshape : (storeIt (setSame (applyEDEffects s f nodeP.data.FileName e0) ptr
            (applyEDEffects s f nodeP.data.FileName e0).FileData.length) f).FileData =
            (s.FileData.modify (fun n => { n with Same := s.FileData.length }) ptr)
              ++ [⟨f, 0, 0, 0⟩] := by
          rw [storeIt_FileData, setSame_FileData]
          simp only [hFD1]
        rw [hshape]
        have hmlen : ((s.FileData.modify (fun n => { n with Same := s.FileData.length }) ptr)
            ++ [(⟨f, 0, 0, 0⟩ : Node)]).length = s.FileData.length + 1 := by
          simp [List.length_modify]
        rw [hmlen]
        have hgetp : ((s.FileData.modify (fun n => { n with Same := s.FileData.length }) ptr)
            ++ [(⟨f, 0, 0, 0⟩ : Node)])[ptr]? =
            some { nodeP with Same := s.FileData.length } := by
          rw [List.getElem?_append, if_pos (by rw [List.length_modify]; omega),
            List.getElem?_modify, hP]
          simp
        have hgetn : ((s.FileData.modify (fun n => { n with Same := s.FileData.length }) ptr)
            ++ [(⟨f, 0, 0, 0⟩ : Node)])[s.FileData.length]? = some ⟨f, 0, 0, 0⟩ := by
          rw [List.getElem?_append, if_neg (by rw [List.length_modify]; omega)]
          simp [List.length_modify]
        simp only [chainFrom]
        rw [hgetp]
        dsimp only
        rw [if_neg (show ¬s.FileData.length = 0 by omega)]
        rw [chainFrom_cons _ s.FileData.length s.FileData.length _ hgetn hlen]
        rw [if_pos (show (⟨f, 0, 0, 0⟩ : Node).Same = 0 from rfl)]
        rw [chainFrom_cons s.FileData s.FileData.length ptr nodeP hP hlen, if_pos hs]
        rfl
    · rw [if_pos (by simpa using hs)]
      obtain ⟨hpq, hqlen⟩ : ptr < nodeP.Same ∧ nodeP.Same < s.FileData.length :=
        (WF_links s hWF ptr nodeP hP).resolve_left hs
      obtain ⟨nodeQ, hQ⟩ : ∃ nodeQ, s.FileData[nodeP.Same]? = some nodeQ := by
        cases hq : s.FileData[nodeP.Same]? with
        | none => rw [List.getElem?_eq_none_iff] at hq; omega
        | some nodeQ => exact ⟨nodeQ, rfl⟩
      have hsigQ : checksumBytes f.Crc f.Sum = checksumBytes nodeQ.data.Crc nodeQ.data.Sum :=
        hsig.trans ((hWF.2 ptr nodeP hP).2.2.2 hs nodeQ hQ).symm
      have hchainPQ : chainFrom s.FileData s.FileData.length ptr =
          ptr :: chainFrom s.FileData s.FileData.length nodeP.Same := by
        rw [chainFrom_cons s.FileData _ ptr nodeP hP hlen, if_neg hs,
          chainFrom_congr s.FileData (WF_links s hWF) (s.FileData.length - 1)
            s.FileData.length nodeP.Same (by omega) (by omega)]
      have hrefuteQ : ∀ (j : Nat) (nj : Node),
          j ∈ chainFrom (applyEDEffects s f nodeP.data.FileName e0).FileData
            (applyEDEffects s f nodeP.data.FileName e0).FileData.length nodeP.Same →
          (applyEDEffects s f nodeP.data.FileName e0).FileData[j]? = some nj →
          ∃ e, EliminateDuplicate cfg f nj.data = .ok .EDR_NOT_DUPE e := by
        intro j nj hj hgj
        rw [hFD1] at hj hgj
        exact hrefute j nj (by rw [hchainPQ]; exact List.mem_cons_of_mem _ hj) hgj
      obtain ⟨s'', last, heq2, hWF'', hql, hllen, hshape2, hchain2⟩ :=
        ih nodeP.Same (applyEDEffects s f nodeP.data.FileName e0) nodeQ hWF1
          (by omega) (by rw [hFD1]; exact hQ) (by rw [hFD1]; omega) hsigQ hrefuteQ
      rw [hFD1] at hshape2 hllen
      refine ⟨s'', last, heq2, hWF'', by omega, hllen, hshape2, ?_⟩
      have hlen'' : s''.FileData.length = s.FileData.length + 1 := by
        rw [hshape2]; simp [List.length_modify]
      have hgetp : s''.FileData[ptr]? = some nodeP := by
        rw [hshape2, List.getElem?_append, if_pos (by rw [List.length_modify]; omega),
          List.getElem?_modify, hP]
        simp only [Option.map_eq_map, Option.map_some', Option.some.injEq,
          if_neg (show ¬last = ptr by omega)]
      rw [chainFrom_cons s''.FileData s''.FileData.length ptr nodeP hgetp (by omega), if_neg hs]
      have hcongr : chainFrom s''.FileData (s''.FileData.length - 1) nodeP.Same =
          chainFrom s''.FileData s''.FileData.length nodeP.Same := by
        apply chainFrom_congr s''.FileData (WF_links s'' hWF'') <;> omega
      rw [hcongr]
      have hchain2' : chainFrom s''.FileData s''.FileData.length nodeP.Same =
          chainFrom s.FileData s.FileData.length nodeP.Same ++ [s.FileData.length] := by
        rw [hchain2, hFD1]
      rw [hchain2', hchainPQ]
      rfl

/-- C4: in normal elimination mode, when the incoming record's signature
equals the signature of the stored node `ptr` that the search reached, and
the Verifier refutes the duplicate against every member of that node's
`same` chain (the walk advances along the chain, re-verifying each member
with `EliminateDuplicate`, which answers `EDR_NOT_DUPE`), the record is
appended to the end of the chain and stored; afterwards both colliding
records are in the structure, and the chain from the collision node
reaches both of them. -/
theorem collision_appends_to_chain (cfg : Config) (s : ScanState) (f : FileData_t)
    (ptr : Nat) (nodeP : Node)
    (href : cfg.ReferenceFiles = false) (hhls : cfg.HardlinkSearchMode = false)
    (hWF : WF s) (hp0 : 0 < ptr) (hP : s.FileData[ptr]? = some nodeP)
    (hsig : checksumBytes f.Crc f.Sum = checksumBytes nodeP.data.Crc nodeP.data.Sum)
    (hrefute : ∀ (j : Nat) (nj : Node), j ∈ chainFrom s.FileData s.FileData.length ptr →
      s.FileData[j]? = some nj →
      ∃ e, EliminateDuplicate cfg f nj.data = .ok .EDR_NOT_DUPE e) :
    ∃ s', walkLoop cfg f s.FileData.length ptr s = some (s', .stored) ∧
      storedNames s' = storedNames s ++ [f.FileName] ∧
      s'.FileData[s.FileData.length]? = some ⟨f, 0, 0, 0⟩ ∧
      chainFrom s'.FileData s'.FileData.length ptr =
        chainFrom s.FileData s.FileData.length ptr ++ [s.FileData.length] ∧
      ptr ∈ chainFrom s'.FileData s'.FileData.length ptr ∧
      s.FileData.length ∈ chainFrom s'.FileData s'.FileData.length ptr := by
  have hlt : ptr < s.FileData.length := by
    by_contra hge
    rw [List.getElem?_eq_none (by omega)] at hP
    exact Option.noConfusion hP
  obtain ⟨s', last, heq, hWF', hple, hllen, hshape, hchain⟩ :=
    walkLoop_chain_append cfg f href hhls s.FileData.length ptr s nodeP hWF hp0 hP
      (by omega) hsig hrefute
  obtain ⟨sA, oA, heqA, hWFA, hstA, -, -⟩ :=
    walkLoop_spec cfg f s.FileData.length ptr s hWF hp0 hlt (by omega)
  rw [heq] at heqA
  have hsA : sA = s' := by cases heqA; rfl
  have hoA : oA = .stored := by cases heqA; rfl
  subst hsA
  subst hoA
  refine ⟨sA, heq, hstA rfl, ?_, hchain, ?_, ?_⟩
  · rw [hshape, List.getElem?_append, if_neg (by rw [List.length_modify]; omega)]
    simp [List.length_modify]
  · rw [hchain, chainFrom_cons s.FileData s.FileData.length ptr nodeP hP (by omega)]
    exact List.mem_append_left _ (List.mem_cons_self _ _)
  · rw [hchain]
    exact List.mem_append_right _ (List.mem_singleton.mpr rfl)

/-- C4 witness: a record colliding (equal signature, different one-byte
content) with the single stored node; every hypothesis is discharged on
this concrete state. -/
theorem collision_appends_to_chain_witness :
    ∃ s', walkLoop
      ⟨true, false, false, false, false, false, true, false, false⟩
      ⟨5, 5, 0, 2, 0, 1, "b", [1], false, true⟩
      2 1
      ⟨[⟨⟨0, 0, 0, 0, 0, 0, "", [], false, false⟩, 0, 0, 0⟩,
        ⟨⟨5, 5, 0, 1, 0, 1, "a", [0], false, true⟩, 0, 0, 0⟩], ⟨0, 0, 0, 0, 0, 0, 0⟩, []⟩ =
      some (s', .stored) ∧
      storedNames s' = storedNames
        ⟨[⟨⟨0, 0, 0, 0, 0, 0, "", [], false, false⟩, 0, 0, 0⟩,
          ⟨⟨5, 5, 0, 1, 0, 1, "a", [0], false, true⟩, 0, 0, 0⟩], ⟨0, 0, 0, 0, 0, 0, 0⟩, []⟩
        ++ ["b"] ∧
      s'.FileData[2]? = some ⟨⟨5, 5, 0, 2, 0, 1, "b", [1], false, true⟩, 0, 0, 0⟩ ∧
      chainFrom s'.FileData s'.FileData.length 1 =
        chainFrom
          [⟨⟨0, 0, 0, 0, 0, 0, "", [], false, false⟩, 0, 0, 0⟩,
            ⟨⟨5, 5, 0, 1, 0, 1, "a", [0], false, true⟩, 0, 0, 0⟩] 2 1 ++ [2] ∧
      1 ∈ chainFrom s'.FileData s'.FileData.length 1 ∧
      2 ∈ chainFrom s'.FileData s'.FileData.length 1 := by
  have hWFw : WF ⟨[⟨⟨0, 0, 0, 0, 0, 0, "", [], false, false⟩, 0, 0, 0⟩,
      ⟨⟨5, 5, 0, 1, 0, 1, "a", [0], false, true⟩, 0, 0, 0⟩], ⟨0, 0, 0, 0, 0, 0, 0⟩, []⟩ := by
    refine ⟨by decide, ?_⟩
    intro i node h
    match i with
    | 0 =>
      cases h
      exact ⟨Or.inl rfl, Or.inl rfl, Or.inl rfl, fun hne => absurd rfl hne⟩
    | 1 =>
      cases h
      exact ⟨Or.inl rfl, Or.inl rfl, Or.inl rfl, fun hne => absurd rfl hne⟩
    | (i + 2) => exact Option.noConfusion h
  have hcomp : ¬fullCompare 1 [1] [0] = true := by
    intro h
    have := (fullCompare_iff 1 [1] [0]).mp h
    simp at this
  have hED : EliminateDuplicate
      ⟨true, false, false, false, false, false, true, false, false⟩
      ⟨5, 5, 0, 2, 0, 1, "b", [1], false, true⟩
      ⟨5, 5, 0, 1, 0, 1, "a", [0], false, true⟩ =
      .ok .EDR_NOT_DUPE ⟨true, false, false, false, false, false, false, false, false⟩ := by
    unfold EliminateDuplicate
    rw [if_neg (by decide), if_neg (by decide), if_neg (by decide), if_neg (by decide),
      if_neg hcomp]
  exact collision_appends_to_chain _ _ _ 1 _ rfl rfl hWFw (by decide) rfl rfl
    (by
      intro j nj hj hg
      match j, hj with
      | 1, _ =>
        cases hg
        exact ⟨_, hED⟩)

/-- When every metadata call succeeds and the file is not skipped,
`ProcessFile` hands the built record to `CheckDuplicate`. -/
lemma ProcessFile_toCheck (cfg : Config) (s : ScanState) (c : Candidate)
    (hb : ¬(cfg.BatchFile = true ∧ c.nameIsBatchFile = true))
    (hst : c.statOk = true)
    (hz : ¬(c.FileSize = 0 ∧ cfg.SkipZeroLength = true))
    (hcf : c.createFileOk = true) (hgi : c.getInfoOk = true)
    (hhls : cfg.HardlinkSearchMode = false)
    (hfo : c.fopenOk = true) (hrd : c.readOk = true)
    (s' : ScanState) (o : InsOutcome)
    (h : CheckDuplicate cfg s (buildRecord cfg c) = some (s', o)) :
    ProcessFile cfg s c = some (s', .checked o) := by
  unfold ProcessFile
  rw [if_neg hb, if_neg (by simp [hst]), if_neg hz, if_neg (by simp [hcf]),
    if_neg (by simp [hgi]), if_neg (by simp [hhls]), if_neg (by simp [hfo]),
    if_neg (by simp [hrd]), h]

/-- C8: zero-length handling.  When `SkipZeroLength` holds (the default), a
zero-length candidate is counted in `ZeroLengthFiles` and skipped with the
grouping structure untouched.  When `SkipZeroLength` is off, in normal
report-only mode, a second zero-length file is verified against the first
(their signatures agree, the zero-byte comparison succeeds) and the pair
is reported as duplicates: the second file ends as an `EDR_NO_OP`
eliminated duplicate, counted and reported against the first. -/
theorem zeroLength_files (cfg cfg' : Config) (s : ScanState) (c c1 c2 : Candidate)
    (hsk' : cfg'.SkipZeroLength = true)
    (hb' : ¬(cfg'.BatchFile = true ∧ c.nameIsBatchFile = true))
    (hst' : c.statOk = true) (hsz' : c.FileSize = 0)
    (hsz : cfg.SkipZeroLength = false) (href : cfg.ReferenceFiles = false)
    (hhls : cfg.HardlinkSearchMode = false) (hmh : cfg.MakeHardLinks = false)
    (hdd : cfg.DelDuplicates = false) (hpd : cfg.PrintDuplicates = true)
    (hbf : cfg.BatchFile = false)
    (h1st : c1.statOk = true) (h1cf : c1.createFileOk = true) (h1gi : c1.getInfoOk = true)
    (h1fo : c1.fopenOk = true) (h1rd : c1.readOk = true) (h1vo : c1.verifyOpenOk = true)
    (h1sz : c1.FileSize = 0) (h1ct : c1.content = [])
    (h2st : c2.statOk = true) (h2cf : c2.createFileOk = true) (h2gi : c2.getInfoOk = true)
    (h2fo : c2.fopenOk = true) (h2rd : c2.readOk = true) (h2vo : c2.verifyOpenOk = true)
    (h2sz : c2.FileSize = 0) (h2ct : c2.content = [])
    (hnl : ¬(c1.nNumberOfLinks > 0 ∧
      fileIndexEq (buildRecord cfg c2) (buildRecord cfg c1) = true)) :
    (ProcessFile cfg' s c = some (zeroLenState s, .zeroLength) ∧
      (zeroLenState s).FileData = s.FileData ∧
      (zeroLenState s).stats.ZeroLengthFiles = s.stats.ZeroLengthFiles + 1) ∧
    ∃ s1 s2, ProcessFile cfg initState c1 = some (s1, .checked .stored) ∧
      ProcessFile cfg s1 c2 = some (s2, .checked (.eliminated .EDR_NO_OP)) ∧
      s2.reports = [(c1.FileName, c2.FileName)] ∧
      s2.stats.DuplicateFiles = 1 ∧
      storedNames s2 = [c1.FileName] := by
  constructor
  · refine ⟨?_, rfl, rfl⟩
    unfold ProcessFile
    rw [if_neg hb', if_neg (by simp [hst']), if_pos ⟨hsz', hsk'⟩]
  · have hbr1 : buildRecord cfg c1 = ⟨0, 0, c1.nFileIndexHigh, c1.nFileIndexLow,
        c1.nNumberOfLinks, 0, c1.FileName, [], c1.readonly, true⟩ := by
      unfold buildRecord
      rw [if_neg (by simp [hhls]), h1ct, h1sz, h1vo]
      rfl
    have hbr2 : buildRecord cfg c2 = ⟨0, 0, c2.nFileIndexHigh, c2.nFileIndexLow,
        c2.nNumberOfLinks, 0, c2.FileName, [], c2.readonly, true⟩ := by
      unfold buildRecord
      rw [if_neg (by simp [hhls]), h2ct, h2sz, h2vo]
      rfl
    have hCD1 : CheckDuplicate cfg initState (buildRecord cfg c1) =
        some (storeIt (bumpTotals initState (buildRecord cfg c1)) (buildRecord cfg c1),
          .stored) := by
      unfold CheckDuplicate
      rw [if_pos (show (bumpTotals initState (buildRecord cfg c1)).FileData.length = 1
        from rfl)]
    set s1 := storeIt (bumpTotals initState (buildRecord cfg c1)) (buildRecord cfg c1)
      with hs1
    have hED : EliminateDuplicate cfg (buildRecord cfg c2) (buildRecord cfg c1) =
        edFromDontRead cfg (buildRecord cfg c2) (buildRecord cfg c1) false
          ⟨true, false, false, false, false, false, false, false, true⟩ := by
      unfold EliminateDuplicate
      rw [if_neg (by rw [hbr1, hbr2]; simp), if_neg (by rw [hbr1] at hnl ⊢; exact hnl),
        if_neg (by rw [hbr2]; simp), if_neg (by rw [hbr1]; simp),
        if_pos ((fullCompare_iff _ _ _).mpr (by rw [hbr1, hbr2]))]
    have hED2 : EliminateDuplicate cfg (buildRecord cfg c2) (buildRecord cfg c1) =
        .ok .EDR_NO_OP (reportEff cfg
          ⟨true, false, false, false, false, false, false, false, true⟩) :=
      hED.trans (edFromDontRead_reportOnly cfg _ _ false _ hmh hdd)
    have hrep : reportEff cfg ⟨true, false, false, false, false, false, false, false, true⟩ =
        ⟨true, true, false, false, false, false, false, false, true⟩ := by
      unfold reportEff
      rw [if_pos (by simp [hpd, hhls])]
    rw [hrep] at hED2
    have hCD2 : CheckDuplicate cfg s1 (buildRecord cfg c2) =
        some (applyEDEffects (bumpTotals s1 (buildRecord cfg c2)) (buildRecord cfg c2)
            (buildRecord cfg c1).FileName
            ⟨true, true, false, false, false, false, false, false, true⟩,
          .eliminated .EDR_NO_OP) := by
      unfold CheckDuplicate
      rw [if_neg (by simp [hs1, storeIt, bumpTotals, initState])]
      have hget1 : (bumpTotals s1 (buildRecord cfg c2)).FileData[1]? =
          some ⟨buildRecord cfg c1, 0, 0, 0⟩ := rfl
      have hlen2 : (bumpTotals s1 (buildRecord cfg c2)).FileData.length = 2 := rfl
      rw [hlen2]
      simp only [walkLoop]
      rw [hget1]
      dsimp only
      rw [if_pos (show compChecksum (buildRecord cfg c2) (buildRecord cfg c1) = 0 by
          rw [hbr1, hbr2]; exact (compChecksum_eq_zero_iff _ _).mpr rfl),
        if_pos (by simp [href, hhls]), hED2]
    refine ⟨s1,
      applyEDEffects (bumpTotals s1 (buildRecord cfg c2)) (buildRecord cfg c2)
        (buildRecord cfg c1).FileName
        ⟨true, true, false, false, false, false, false, false, true⟩,
      ProcessFile_toCheck cfg initState c1 (by simp [hbf]) h1st
        (by simp [hsz]) h1cf h1gi hhls h1fo h1rd _ _ hCD1,
      ProcessFile_toCheck cfg s1 c2 (by simp [hbf]) h2st (by simp [hsz])
        h2cf h2gi hhls h2fo h2rd _ _ hCD2, ?_, ?_, ?_⟩
    · simp [applyEDEffects, bumpTotals, hs1, storeIt, initState, hbr1, hbr2]
    · simp [applyEDEffects, bumpTotals, hs1, storeIt, initState]
    · rw [storedNames_eq_of_FileData _ (bumpTotals s1 (buildRecord cfg c2))
        (applyEDEffects_FileData ..)]
      rw [storedNames_eq_of_FileData (bumpTotals s1 (buildRecord cfg c2)) s1 rfl]
      rw [hs1, storedNames_append _ _ (by simp [bumpTotals, initState]), hbr1]
      rfl

/-- C8 witness: a zero-length candidate under the default configuration,
and two zero-length candidates with `-z`; every hypothesis is discharged
on these concrete inputs. -/
theorem zeroLength_files_witness :
    (ProcessFile ⟨true, false, false, false, false, false, true, false, false⟩ initState
        ⟨"z", true, 0, true, true, 1, 0, 3, true, true, [], false, true, false⟩ =
        some (zeroLenState initState, .zeroLength) ∧
      (zeroLenState initState).FileData = initState.FileData ∧
      (zeroLenState initState).stats.ZeroLengthFiles =
        initState.stats.ZeroLengthFiles + 1) ∧
    ∃ s1 s2, ProcessFile ⟨true, false, false, false, false, false, false, false, false⟩
        initState ⟨"a", true, 0, true, true, 1, 0, 1, true, true, [], false, true, false⟩ =
        some (s1, .checked .stored) ∧
      ProcessFile ⟨true, false, false, false, false, false, false, false, false⟩ s1
        ⟨"b", true, 0, true, true, 1, 0, 2, true, true, [], false, true, false⟩ =
        some (s2, .checked (.eliminated .EDR_NO_OP)) ∧
      s2.reports = [("a", "b")] ∧
      s2.stats.DuplicateFiles = 1 ∧
      storedNames s2 = ["a"] :=
  zeroLength_files
    ⟨true, false, false, false, false, false, false, false, false⟩
    ⟨true, false, false, false, false, false, true, false, false⟩
    initState
    ⟨"z", true, 0, true, true, 1, 0, 3, true, true, [], false, true, false⟩
    ⟨"a", true, 0, true, true, 1, 0, 1, true, true, [], false, true, false⟩
    ⟨"b", true, 0, true, true, 1, 0, 2, true, true, [], false, true, false⟩
    rfl (by decide) rfl rfl rfl rfl rfl rfl rfl rfl rfl
    rfl rfl rfl rfl rfl rfl rfl rfl
    rfl rfl rfl rfl rfl rfl rfl rfl
    (by decide)

/-- C9 counterexample: a candidate whose signature-prefix `_wfopen_s`
fails is skipped without `CantReadFiles` being incremented (the state is
returned unchanged), and an open failure during full-content verification
(`EliminateDuplicate`) aborts the whole run: scanning `[a, b, c]` where
`b` collides with `a` but cannot be opened stops after `b` with a fatal
outcome — candidate `c` is never processed. -/
theorem unreadable_counterexample :
    ProcessFile ⟨true, false, false, false, false, false, true, false, false⟩ initState
      ⟨"x", true, 1, true, true, 1, 0, 9, false, true, [7], false, true, false⟩ =
      some (initState, .prefixOpenFailed) ∧
    (ProcessFiles ⟨true, false, false, false, false, false, true, false, false⟩ initState
      [⟨"a", true, 1, true, true, 1, 0, 1, true, true, [7], false, true, false⟩,
       ⟨"b", true, 1, true, true, 1, 0, 2, true, true, [7], false, false, false⟩,
       ⟨"c", true, 1, true, true, 1, 0, 3, true, true, [9], false, true, false⟩]).map
      Prod.snd = some [.checked .stored, .checked .fatalRun] := by
  constructor
  · decide
  · decide

/-- C9 as amended: a stat, `CreateFileW` or `GetFileInformationByHandle`
failure is counted in `CantReadFiles` and the file skipped with the
grouping structure untouched; a failure to open or to fully read the
signature prefix skips the file silently, without touching any counter;
the scan loop continues past every non-fatal outcome, but an open failure
during full-content verification makes `EliminateDuplicate` abort the run
(`exit(EXIT_FAILURE)`), halting the scan with no further candidate
processed. -/
theorem unreadable_files_handling (cfg : Config) (s sg sg' sg'' th sh : ScanState)
    (ca cb cc cd ce cg ch : Candidate) (tf df : FileData_t)
    (cs cs2 : List Candidate) (r : PFResult) (rs : List PFResult)
    (hba : ¬(cfg.BatchFile = true ∧ ca.nameIsBatchFile = true))
    (hsa : ca.statOk = false)
    (hbb : ¬(cfg.BatchFile = true ∧ cb.nameIsBatchFile = true))
    (hsb : cb.statOk = true) (hzb : ¬(cb.FileSize = 0 ∧ cfg.SkipZeroLength = true))
    (hcb : cb.createFileOk = false)
    (hbc : ¬(cfg.BatchFile = true ∧ cc.nameIsBatchFile = true))
    (hsc : cc.statOk = true) (hzc : ¬(cc.FileSize = 0 ∧ cfg.SkipZeroLength = true))
    (hcc : cc.createFileOk = true) (hgc : cc.getInfoOk = false)
    (hbd : ¬(cfg.BatchFile = true ∧ cd.nameIsBatchFile = true))
    (hsd : cd.statOk = true) (hzd : ¬(cd.FileSize = 0 ∧ cfg.SkipZeroLength = true))
    (hcd : cd.createFileOk = true) (hgd : cd.getInfoOk = true)
    (hhls : cfg.HardlinkSearchMode = false) (hfd : cd.fopenOk = false)
    (hbe : ¬(cfg.BatchFile = true ∧ ce.nameIsBatchFile = true))
    (hse : ce.statOk = true) (hze : ¬(ce.FileSize = 0 ∧ cfg.SkipZeroLength = true))
    (hce : ce.createFileOk = true) (hge : ce.getInfoOk = true)
    (hfe : ce.fopenOk = true) (hre : ce.readOk = false)
    (hszf : tf.FileSize = df.FileSize)
    (hnlf : ¬(df.NumLinks > 0 ∧ fileIndexEq tf df = true))
    (hof : tf.openOk = false)
    (hpg : ProcessFile cfg sg cg = some (sg', r)) (hgnf : r ≠ .checked .fatalRun)
    (hgrest : ProcessFiles cfg sg' cs = some (sg'', rs))
    (hph : ProcessFile cfg th ch = some (sh, .checked .fatalRun)) :
    (ProcessFile cfg s ca = some (cantReadState s, .cantRead) ∧
      (cantReadState s).stats.CantReadFiles = s.stats.CantReadFiles + 1 ∧
      (cantReadState s).FileData = s.FileData) ∧
    ProcessFile cfg s cb = some (cantReadState s, .cantRead) ∧
    ProcessFile cfg s cc = some (cantReadState s, .cantRead) ∧
    ProcessFile cfg s cd = some (s, .prefixOpenFailed) ∧
    ProcessFile cfg s ce = some (s, .prefixReadFailed) ∧
    EliminateDuplicate cfg tf df = .fatal ∧
    ProcessFiles cfg sg (cg :: cs) = some (sg'', r :: rs) ∧
    ProcessFiles cfg th (ch :: cs2) = some (sh, [.checked .fatalRun]) := by
  refine ⟨⟨?_, rfl, rfl⟩, ?_, ?_, ?_, ?_, ?_, ?_, ?_⟩
  · unfold ProcessFile
    rw [if_neg hba, if_pos (by simp [hsa])]
  · unfold ProcessFile
    rw [if_neg hbb, if_neg (by simp [hsb]), if_neg hzb, if_pos (by simp [hcb])]
  · unfold ProcessFile
    rw [if_neg hbc, if_neg (by simp [hsc]), if_neg hzc, if_neg (by simp [hcc]),
      if_pos (by simp [hgc])]
  · unfold ProcessFile
    rw [if_neg hbd, if_neg (by simp [hsd]), if_neg hzd, if_neg (by simp [hcd]),
      if_neg (by simp [hgd]), if_neg (by simp [hhls]), if_pos (by simp [hhls, hfd])]
  · unfold ProcessFile
    rw [if_neg hbe, if_neg (by simp [hse]), if_neg hze, if_neg (by simp [hce]),
      if_neg (by simp [hge]), if_neg (by simp [hhls]), if_neg (by simp [hfe]),
      if_pos (by simp [hhls, hre])]
  · unfold EliminateDuplicate
    rw [if_neg (by simpa using hszf), if_neg hnlf, if_pos (by simp [hof])]
  · simp only [ProcessFiles]
    rw [hpg]
    cases r with
    | checked o => cases o with
      | fatalRun => exact absurd rfl hgnf
      | stored => dsimp only; rw [hgrest]
      | eliminated r0 => dsimp only; rw [hgrest]
    | skippedBatchFileName => dsimp only; rw [hgrest]
    | cantRead => dsimp only; rw [hgrest]
    | zeroLength => dsimp only; rw [hgrest]
    | notHardlinked => dsimp only; rw [hgrest]
    | prefixOpenFailed => dsimp only; rw [hgrest]
    | prefixReadFailed => dsimp only; rw [hgrest]
  · simp only [ProcessFiles]
    rw [hph]

/-- C9 amended-theorem witness: concrete candidates exercising each
failure path; the run-halting pair reuses the state holding one stored
one-byte file. -/
theorem unreadable_files_handling_witness :
    (ProcessFile ⟨true, false, false, false, false, false, true, false, false⟩ initState
        ⟨"a", false, 1, true, true, 1, 0, 1, true, true, [7], false, true, false⟩ =
        some (cantReadState initState, .cantRead) ∧
      (cantReadState initState).stats.CantReadFiles = initState.stats.CantReadFiles + 1 ∧
      (cantReadState initState).FileData = initState.FileData) ∧
    ProcessFile ⟨true, false, false, false, false, false, true, false, false⟩ initState
      ⟨"b", true, 1, false, true, 1, 0, 2, true, true, [7], false, true, false⟩ =
      some (cantReadState initState, .cantRead) ∧
    ProcessFile ⟨true, false, false, false, false, false, true, false, false⟩ initState
      ⟨"c", true, 1, true, false, 1, 0, 3, true, true, [7], false, true, false⟩ =
      some (cantReadState initState, .cantRead) ∧
    ProcessFile ⟨true, false, false, false, false, false, true, false, false⟩ initState
      ⟨"d", true, 1, true, true, 1, 0, 4, false, true, [7], false, true, false⟩ =
      some (initState, .prefixOpenFailed) ∧
    ProcessFile ⟨true, false, false, false, false, false, true, false, false⟩ initState
      ⟨"e", true, 1, true, true, 1, 0, 5, true, false, [7], false, true, false⟩ =
      some (initState, .prefixReadFailed) ∧
    EliminateDuplicate ⟨true, false, false, false, false, false, true, false, false⟩
      ⟨5, 5, 0, 6, 1, 1, "f", [7], false, false⟩
      ⟨5, 5, 0, 7, 1, 1, "g", [7], false, true⟩ = .fatal ∧
    ProcessFiles ⟨true, false, false, false, false, false, true, false, false⟩ initState
      [⟨"h", false, 1, true, true, 1, 0, 8, true, true, [7], false, true, false⟩] =
      some (cantReadState initState, [.cantRead]) ∧
    ProcessFiles ⟨true, false, false, false, false, false, true, false, false⟩
      ⟨[⟨⟨0, 0, 0, 0, 0, 0, "", [], false, false⟩, 0, 0, 0⟩,
        ⟨⟨117444096, 15, 0, 1, 1, 1, "a", [7], false, true⟩, 0, 0, 0⟩],
       ⟨1, 0, 0, 0, 0, 1, 0⟩, []⟩
      [⟨"i", true, 1, true, true, 1, 0, 9, true, true, [7], false, false, false⟩] =
      some (⟨[⟨⟨0, 0, 0, 0, 0, 0, "", [], false, false⟩, 0, 0, 0⟩,
        ⟨⟨117444096, 15, 0, 1, 1, 1, "a", [7], false, true⟩, 0, 0, 0⟩],
       ⟨2, 0, 0, 0, 0, 2, 0⟩, []⟩, [.checked .fatalRun]) :=
  unreadable_files_handling
    ⟨true, false, false, false, false, false, true, false, false⟩
    initState initState (cantReadState initState) (cantReadState initState)
    ⟨[⟨⟨0, 0, 0, 0, 0, 0, "", [], false, false⟩, 0, 0, 0⟩,
      ⟨⟨117444096, 15, 0, 1, 1, 1, "a", [7], false, true⟩, 0, 0, 0⟩],
     ⟨1, 0, 0, 0, 0, 1, 0⟩, []⟩
    ⟨[⟨⟨0, 0, 0, 0, 0, 0, "", [], false, false⟩, 0, 0, 0⟩,
      ⟨⟨117444096, 15, 0, 1, 1, 1, "a", [7], false, true⟩, 0, 0, 0⟩],
     ⟨2, 0, 0, 0, 0, 2, 0⟩, []⟩
    ⟨"a", false, 1, true, true, 1, 0, 1, true, true, [7], false, true, false⟩
    ⟨"b", true, 1, false, true, 1, 0, 2, true, true, [7], false, true, false⟩
    ⟨"c", true, 1, true, false, 1, 0, 3, true, true, [7], false, true, false⟩
    ⟨"d", true, 1, true, true, 1, 0, 4, false, true, [7], false, true, false⟩
    ⟨"e", true, 1, true, true, 1, 0, 5, true, false, [7], false, true, false⟩
    ⟨"h", false, 1, true, true, 1, 0, 8, true, true, [7], false, true, false⟩
    ⟨"i", true, 1, true, true, 1, 0, 9, true, true, [7], false, false, false⟩
    ⟨5, 5, 0, 6, 1, 1, "f", [7], false, false⟩
    ⟨5, 5, 0, 7, 1, 1, "g", [7], false, true⟩
    [] [] .cantRead []
    (by decide) rfl
    (by decide) rfl (by decide) rfl
    (by decide) rfl (by decide) rfl rfl
    (by decide) rfl (by decide) rfl rfl rfl rfl
    (by decide) rfl (by decide) rfl rfl rfl rfl
    rfl (by decide) rfl
    (by decide) (by decide) rfl
    (by decide)

/- `ShowLinkGroups` (finddupe.c lines 478-499): after a hardlink-search scan
the tree is walked from index 1; a node whose record's `NumLinks` exceeds 1
prints its `Same` chain as one hardlink group, then both subtrees are
walked.  `chainNames` is the while loop printing the chain; the fuel is
bounded by the array length since chain and tree links strictly increase. -/
def chainNames (nodes : List Node) : Nat → Nat → List String
  | 0, _ => []
  | _ + 1, 0 => []
  | fuel + 1, i =>
    match nodes[i]? with
    | none => []
    | some nd => nd.data.FileName :: chainNames nodes fuel nd.Same

def ShowLinkGroups (nodes : List Node) : Nat → Nat → List (List String)
  | 0, _ => []
  | fuel + 1, i =>
    if nodes.length = 1 ∨ i = 0 then []
    else
      match nodes[i]? with
      | none => []
      | some nd =>
        (if 1 < nd.data.NumLinks then [chainNames nodes nodes.length i] else [])
          ++ ShowLinkGroups nodes fuel nd.Larger
          ++ ShowLinkGroups nodes fuel nd.Smaller

/- The indices the recursion of `ShowLinkGroups` reaches. -/
def visitedNodes (nodes : List Node) : Nat → Nat → List Nat
  | 0, _ => []
  | fuel + 1, i =>
    if nodes.length = 1 ∨ i = 0 then []
    else
      match nodes[i]? with
      | none => []
      | some nd =>
        i :: (visitedNodes nodes fuel nd.Larger ++ visitedNodes nodes fuel nd.Smaller)

theorem mem_ite_singleton {c : Prop} [Decidable c] {a g : List String} :
    g ∈ (if c then [a] else []) ↔ c ∧ g = a := by
  split <;> simp_all

/-- C10 counterexample: the reporter has no condition on the chain length
and never compares the link count with the chain length found.  A tree
whose single node "x" has link count 2 but a one-element `Same` chain is
reported as a group, though its chain length does not exceed one; and a
two-element chain "y", "z" whose head's link count is 2 is reported,
though the link count does not exceed the chain length found. -/
theorem hardlink_report_counterexample :
    ShowLinkGroups [⟨⟨0, 0, 0, 0, 0, 0, "", [], false, false⟩, 0, 0, 0⟩,
        ⟨⟨0, 0, 0, 0, 2, 1, "x", [7], false, true⟩, 0, 0, 0⟩] 2 1 = [["x"]] ∧
    (chainNames [⟨⟨0, 0, 0, 0, 0, 0, "", [], false, false⟩, 0, 0, 0⟩,
        ⟨⟨0, 0, 0, 0, 2, 1, "x", [7], false, true⟩, 0, 0, 0⟩] 2 1).length = 1 ∧
    ShowLinkGroups [⟨⟨0, 0, 0, 0, 0, 0, "", [], false, false⟩, 0, 0, 0⟩,
        ⟨⟨0, 0, 0, 0, 2, 1, "y", [7], false, true⟩, 0, 0, 2⟩,
        ⟨⟨0, 0, 0, 0, 2, 1, "z", [7], false, true⟩, 0, 0, 0⟩] 3 1 = [["y", "z"]] ∧
    (chainNames [⟨⟨0, 0, 0, 0, 0, 0, "", [], false, false⟩, 0, 0, 0⟩,
        ⟨⟨0, 0, 0, 0, 2, 1, "y", [7], false, true⟩, 0, 0, 2⟩,
        ⟨⟨0, 0, 0, 0, 2, 1, "z", [7], false, true⟩, 0, 0, 0⟩] 3 1).length = 2 ∧
    (([⟨⟨0, 0, 0, 0, 0, 0, "", [], false, false⟩, 0, 0, 0⟩,
        ⟨⟨0, 0, 0, 0, 2, 1, "y", [7], false, true⟩, 0, 0, 2⟩,
        ⟨⟨0, 0, 0, 0, 2, 1, "z", [7], false, true⟩, 0, 0, 0⟩] : List Node)[1]?.map
      (fun nd => nd.data.NumLinks)) = some 2 := by
  decide

/-- C10 as amended: the reporter visits both subtrees at every reached
node, and a group is reported exactly for every visited node whose
record's on-disk link count exceeds one — with no condition on the length
of the `Same` chain and no comparison of the link count with the chain
length found — each reported group listing the chain members from that
node on. -/
theorem hardlink_groups_reported (nodes : List Node) (fuel : Nat) :
    ∀ (i : Nat) (g : List String),
      g ∈ ShowLinkGroups nodes fuel i ↔
        ∃ j nd, j ∈ visitedNodes nodes fuel i ∧ nodes[j]? = some nd ∧
          1 < nd.data.NumLinks ∧ g = chainNames nodes nodes.length j := by
  induction fuel with
  | zero =>
    intro i g
    simp [ShowLinkGroups, visitedNodes]
  | succ fuel ih =>
    intro i g
    by_cases hc : nodes.length = 1 ∨ i = 0
    · simp [ShowLinkGroups, visitedNodes, hc]
    · cases hnd : nodes[i]? with
      | none =>
        simp only [ShowLinkGroups, visitedNodes, if_neg hc]
        rw [hnd]
        simp
      | some nd =>
        simp only [ShowLinkGroups, visitedNodes, if_neg hc]
        rw [hnd]
        dsimp only
        simp only [List.mem_append, mem_ite_singleton, List.mem_cons, ih]
        constructor
        · rintro ((⟨hl, rfl⟩ | ⟨j, nd1, hj, hjn, hl, rfl⟩) | ⟨j, nd1, hj, hjn, hl, rfl⟩)
          · exact ⟨i, nd, Or.inl rfl, hnd, hl, rfl⟩
          · exact ⟨j, nd1, Or.inr (Or.inl hj), hjn, hl, rfl⟩
          · exact ⟨j, nd1, Or.inr (Or.inr hj), hjn, hl, rfl⟩
        · rintro ⟨j, nd1, (rfl | hj | hj), hjn, hl, rfl⟩
          · rw [hnd] at hjn
            cases hjn
            exact Or.inl (Or.inl ⟨hl, rfl⟩)
          · exact Or.inl (Or.inr ⟨j, nd1, hj, hjn, hl, rfl⟩)
          · exact Or.inr ⟨j, nd1, hj, hjn, hl, rfl⟩

end Finddupe

